import Mathlib

/-!
Verification development for the anonymous-target resolution core
(`buck2_build_api/src/analysis/anon_targets.rs` and the data model around it).

The Rust source is shallowly embedded: pure functions become Lean functions,
fallible code returns `Except`, and the per-analysis-scope registry becomes an
explicit state value.  External collaborators that are not part of the shown
source (the pattern lexer, the schema/`OrderedMap` container semantics, the
keep-going join) are modelled from the specification and are marked as such in
their doc comments.
-/

set_option maxRecDepth 4000

/-- Configuration token (`buck2_core::configuration::Configuration`); the only
construction used by the core under scrutiny is the unspecified configuration
plus opaque configurations inherited from the caller. -/
inductive Configuration
  | unspecified
  | named (s : String)
deriving DecidableEq, Repr

/-- Syntactic target label: cell, package path, target name
(`buck2_core::target::TargetLabel`, syntactic content only). -/
structure TargetLabel where
  cell : String
  package : String
  target : String
deriving DecidableEq, Repr

/-- Configured target label (`ConfiguredTargetLabel`): a target label plus the
configuration it is configured with. -/
structure ConfiguredTargetLabel where
  label : TargetLabel
  cfg : Configuration
deriving DecidableEq, Repr

/-- Providers name on a providers label (`ProvidersName`). -/
inductive ProvidersName
  | default
  | named (parts : List String)
deriving DecidableEq, Repr

/-- Unconfigured providers label (`ProvidersLabel`). -/
structure ProvidersLabel where
  target : TargetLabel
  name : ProvidersName
deriving DecidableEq, Repr

/-- Configured providers label (`ConfiguredProvidersLabel`). -/
structure ConfiguredProvidersLabel where
  target : ConfiguredTargetLabel
  name : ProvidersName
deriving DecidableEq, Repr

/-- Coerced source path token (`CoercedPath`); never constructed by the
anonymous-target coercion layer because its neutral context refuses to parse
paths, but present so signatures match the source. -/
structure CoercedPath where
  path : String
deriving DecidableEq, Repr

/-- Parsed target pattern token (`ParsedPattern<TargetPattern>`); as with
`CoercedPath`, never produced by the neutral context. -/
structure ParsedTargetPattern where
  text : String
deriving DecidableEq, Repr

/-- Error enum of `anon_targets.rs` (`AnonTargetsError`, lines 106-126). -/
inductive AnonTargetsError
  | AssertNoPromisesFailed
  | InvalidNameType (typ : String) (value : String)
  | NotTargetLabel (s : String)
  | CantParseDuringCoerce (s : String)
  | UnknownAttribute (s : String)
  | InternalAttribute (s : String)
  | MissingAttribute (s : String)
  | InvalidDep (s : String)
deriving DecidableEq, Repr

/-- The source signatures use `anyhow::Result`, which can carry either the
crate's own `AnonTargetsError` or an arbitrary error from a collaborator; we
keep the two apart. -/
inductive AnyError
  | anon (e : AnonTargetsError)
  | msg (s : String)
deriving DecidableEq, Repr

/-- Transition carried by a dependency attribute type (`DepAttrTransition`). -/
inductive DepAttrTransition
  | identity
  | target
  | exec
deriving DecidableEq, Repr

/-- Dependency attribute type (`DepAttrType`): required providers plus
transition. -/
structure DepAttrType where
  required_providers : List String
  transition : DepAttrTransition
deriving DecidableEq, Repr

/-- Closed universe of attribute types (`AttrTypeInner`), per the spec's
design note replacing open dynamic dispatch by a tagged variant per attribute
kind: dependency kinds, plain scalar kinds, and the string-parsed kinds
(label, source path, query) that the neutral context refuses. -/
inductive AttrTypeInner
  | dep (d : DepAttrType)
  | configured_dep (required_providers : List String)
  | string_t
  | int_t
  | bool_t
  | label_t
  | source_t
  | query_t
deriving DecidableEq, Repr

/-- Coerced (unconfigured) attribute values (`CoercedAttr`) for the closed
universe above; `configured_dep` mirrors `AttrLiteral::ConfiguredDep`, which
the dep branch of `coerce_attr` constructs directly. -/
inductive CoercedAttr
  | string (s : String)
  | int (i : Int)
  | bool (b : Bool)
  | label (l : ProvidersLabel)
  | source (p : CoercedPath)
  | query (q : String)
  | configured_dep (t : DepAttrType) (l : ConfiguredProvidersLabel)
deriving DecidableEq, Repr

/-- Configured attribute values (`ConfiguredAttr`). -/
inductive ConfiguredAttr
  | string (s : String)
  | int (i : Int)
  | bool (b : Bool)
  | label (l : ConfiguredProvidersLabel)
  | source (p : CoercedPath)
  | query (q : String)
  | configured_dep (t : DepAttrType) (l : ConfiguredProvidersLabel)
deriving DecidableEq, Repr

/-- Raw starlark values that reach the coercion pipeline: strings, ints,
bools, structured `Label` values, already-resolved `Dependency` values, and a
catch-all for other runtime types (carrying type name and display text). -/
inductive RawValue
  | str (s : String)
  | int (i : Int)
  | bool (b : Bool)
  | label (l : TargetLabel)
  | dep (l : ConfiguredProvidersLabel)
  | other (typ : String) (display : String)
deriving DecidableEq, Repr

/-- Runtime type name of a raw value (`Value::get_type`). -/
def RawValue.typeName : RawValue → String
  | .str _ => "string"
  | .int _ => "int"
  | .bool _ => "bool"
  | .label _ => "label"
  | .dep _ => "dependency"
  | .other t _ => t

/-- Display text of a raw value (`Value::to_string`), used in
`InvalidNameType`. -/
def RawValue.display : RawValue → String
  | .str s => s
  | .int i => toString i
  | .bool b => toString b
  | .label l => l.cell ++ "//" ++ l.package ++ ":" ++ l.target
  | .dep l => l.target.label.cell ++ "//" ++ l.target.label.package ++ ":" ++ l.target.label.target
  | .other _ d => d

/-- One attribute schema entry (`buck2_node::attrs::attr::Attribute`): a
coercer (attribute type) and an optional coerced default. -/
structure Attribute where
  coercer : AttrTypeInner
  default : Option CoercedAttr
deriving DecidableEq, Repr

/-- Rule schema visible to `AnonTargetKey::new` (`FrozenRuleCallable`): the
rule type name and the ordered attribute specs.  `attribute` lookup and
`attr_specs` iteration are the two accessors the source uses. -/
structure RuleSchema where
  rule_name : String
  attr_specs : List (String × Attribute)
deriving DecidableEq, Repr

/-- First binding for a key in an association list; the lookup used by
`attrs_spec.attribute(k)` and `attrs.contains_key(k)` in the source. -/
def lookupKey {α : Type} (k : String) : List (String × α) → Option α
  | [] => none
  | (k', v) :: rest => if k' = k then some v else lookupKey k rest

/-- Key membership test backed by `lookupKey`. -/
def containsKey {α : Type} (l : List (String × α)) (k : String) : Bool :=
  (lookupKey k l).isSome

/-- Execution platform resolution inherited from the enclosing analysis scope
(`ExecutionPlatformResolution`); the core only reads its configuration via
`cfg()`. -/
structure ExecutionPlatformResolution where
  cfg : Configuration
deriving DecidableEq, Repr

/-- Anonymous target descriptor.  Modelled from the spec:
`buck2_execute::anon_target::AnonTarget` is not under `src/`; per spec §3/§4.2
it is the immutable value of rule identity, resolved name label, configured
attribute set (an insertion-ordered name-to-value mapping, kept here as the
list of entries in insertion order), and execution configuration. -/
structure AnonTarget where
  rule_type : String
  name : TargetLabel
  attrs : List (String × ConfiguredAttr)
  exec_cfg : Configuration
deriving DecidableEq, Repr

/-- Find the first occurrence of "//" in a character list, returning the text
before and after it. -/
def breakDoubleSlash : List Char → Option (List Char × List Char)
  | [] => none
  | '/' :: '/' :: rest => some ([], rest)
  | c :: rest =>
    match breakDoubleSlash rest with
    | none => none
    | some (a, b) => some (c :: a, b)

/-- Find the first occurrence of a colon in a character list, returning the
text before and after it. -/
def breakColon : List Char → Option (List Char × List Char)
  | [] => none
  | ':' :: rest => some ([], rest)
  | c :: rest =>
    match breakColon rest with
    | none => none
    | some (a, b) => some (c :: a, b)

namespace AnonTargetKey

/-- Modelled from the spec: the pattern lexer
(`buck2_core::pattern::lex_target_pattern` / `PatternData`) is not under
`src/`.  Per spec §4.1/§8 a `name` string must be parseable as
`[cell//]package:target` (syntactic validity only) and everything else fails
with `NotTargetLabel`; the cell defaults to the empty cell when only `//` is
given.  This is the body of `AnonTargetKey::parse_target_label`
(lines 191-202) with the lexer inlined. -/
def parse_target_label (x : String) : Except AnyError TargetLabel :=
  match breakDoubleSlash x.data with
  | none => .error (.anon (.NotTargetLabel x))
  | some (cell, rest) =>
    match breakDoubleSlash rest with
    | some _ => .error (.anon (.NotTargetLabel x))
    | none =>
      match breakColon rest with
      | none => .error (.anon (.NotTargetLabel x))
      | some (pkg, tgt) =>
        match breakColon tgt with
        | some _ => .error (.anon (.NotTargetLabel x))
        | none =>
          if tgt.isEmpty then .error (.anon (.NotTargetLabel x))
          else .ok { cell := ⟨cell⟩, package := ⟨pkg⟩, target := ⟨tgt⟩ }

/-- Synthesized name for a rule without a caller-supplied `name`
(`AnonTargetKey::create_name`, lines 204-210): a label in the reserved
`anon` cell with the empty package and the rule's own name as target.
`TargetName::new` validation lives in `buck2_core`, which is not under
`src/`; modelled from the spec, which guarantees a well-formed identity for
every rule, it always succeeds. -/
def create_name (rule_name : String) : Except AnyError TargetLabel :=
  .ok { cell := "anon", package := "", target := rule_name }

/-- Resolution of the `name` attribute (`AnonTargetKey::coerce_name`,
lines 212-224): a structured `Label` value is taken as its unconfigured
target, a string is parsed, anything else is `InvalidNameType`. -/
def coerce_name (x : RawValue) : Except AnyError TargetLabel :=
  match x with
  | .label l => .ok l
  | .str s => parse_target_label s
  | v => .error (.anon (.InvalidNameType v.typeName v.display))

end AnonTargetKey

/-- The mostly-useless coercion/configuration context
(`AnonAttrCtx`, lines 385-398): unspecified configuration and no resolved
transitions. -/
structure AnonAttrCtx where
  cfg : Configuration
  transitions : List (String × String)
deriving DecidableEq, Repr

/-- Constructor `AnonAttrCtx::new` (lines 391-398). -/
def AnonAttrCtx.new : AnonAttrCtx :=
  { cfg := Configuration.unspecified, transitions := [] }

/-- `AttrCoercionContext::coerce_label` for `AnonAttrCtx` (lines 401-403):
always fails with `CantParseDuringCoerce` carrying the offending string. -/
def AnonAttrCtx.coerce_label (_ctx : AnonAttrCtx) (value : String) :
    Except AnyError ProvidersLabel :=
  .error (.anon (.CantParseDuringCoerce value))

/-- `AttrCoercionContext::coerce_path` for `AnonAttrCtx` (lines 405-407). -/
def AnonAttrCtx.coerce_path (_ctx : AnonAttrCtx) (value : String)
    (_allow_directory : Bool) : Except AnyError CoercedPath :=
  .error (.anon (.CantParseDuringCoerce value))

/-- `AttrCoercionContext::coerce_target_pattern` for `AnonAttrCtx`
(lines 409-411). -/
def AnonAttrCtx.coerce_target_pattern (_ctx : AnonAttrCtx) (pat : String) :
    Except AnyError ParsedTargetPattern :=
  .error (.anon (.CantParseDuringCoerce pat))

/-- `AttrCoercionContext::visit_query_function_literals` for `AnonAttrCtx`
(lines 413-420). -/
def AnonAttrCtx.visit_query_function_literals (_ctx : AnonAttrCtx)
    (query : String) : Except AnyError Unit :=
  .error (.anon (.CantParseDuringCoerce query))

/-- Generic coerce step for non-dependency attribute kinds.  Modelled from the
spec: the per-type `coerce_item` implementations live in
`buck2_interpreter_for_build`, which is not under `src/`; per spec §4.1 step 4
plain values coerce structurally while label, path, target-pattern and query
literals are parsed from raw strings through the coercion context (here the
neutral `AnonAttrCtx`, whose parsers always refuse). -/
def coerce_item (ctx : AnonAttrCtx) (t : AttrTypeInner) (v : RawValue) :
    Except AnyError CoercedAttr :=
  match t, v with
  | .string_t, .str s => .ok (.string s)
  | .int_t, .int i => .ok (.int i)
  | .bool_t, .bool b => .ok (.bool b)
  | .label_t, .str s =>
    match ctx.coerce_label s with
    | .error e => .error e
    | .ok l => .ok (.label l)
  | .source_t, .str s =>
    match ctx.coerce_path s false with
    | .error e => .error e
    | .ok p => .ok (.source p)
  | .query_t, .str s =>
    match ctx.visit_query_function_literals s with
    | .error e => .error e
    | .ok _ => .ok (.query s)
  | _, v => .error (.msg ("expected value of attribute type, got " ++ v.typeName))

/-- Configuration of a coerced attribute under the neutral context
(`CoercedAttr::configure` with `AnonAttrCtx`).  Modelled from the spec: the
generic configure implementation is not under `src/`; with an unspecified
configuration and no transitions it maps each coerced value structurally,
configuring embedded labels with the context's configuration. -/
def configure (ctx : AnonAttrCtx) : CoercedAttr → Except AnyError ConfiguredAttr
  | .string s => .ok (.string s)
  | .int i => .ok (.int i)
  | .bool b => .ok (.bool b)
  | .label l => .ok (.label { target := { label := l.target, cfg := ctx.cfg }, name := l.name })
  | .source p => .ok (.source p)
  | .query q => .ok (.query q)
  | .configured_dep t l => .ok (.configured_dep t l)

namespace AnonTargetKey

/-- Unwrapping of dependency-typed coercers (`unpack_dep` inside
`AnonTargetKey::coerce_attr`, lines 227-236). -/
def unpack_dep : AttrTypeInner → Option DepAttrType
  | .dep d => some d
  | .configured_dep rp => some { required_providers := rp, transition := .identity }
  | _ => none

/-- `AnonTargetKey::coerce_attr` (lines 226-253): dependency-typed attributes
unwrap an already-resolved `Dependency` value directly (anything else is
`InvalidDep`); all other types go through coerce-then-configure with the
neutral context. -/
def coerce_attr (attr : Attribute) (x : RawValue) : Except AnyError ConfiguredAttr :=
  let ctx := AnonAttrCtx.new
  match unpack_dep attr.coercer with
  | some attr_type =>
    match x with
    | .dep l => configure ctx (.configured_dep attr_type l)
    | v => .error (.anon (.InvalidDep v.typeName))
  | none =>
    match coerce_item ctx attr.coercer x with
    | .error e => .error e
    | .ok a => configure ctx a

/-- `AnonTargetKey::configure_attr` (lines 255-257): configuration of a schema
default under the neutral context. -/
def configure_attr (x : CoercedAttr) : Except AnyError ConfiguredAttr :=
  configure AnonAttrCtx.new x

/-- First loop of `AnonTargetKey::new` (lines 144-162): walk the supplied
entries in input order; the reserved key `name` is coerced into the name
label, internal attributes are rejected, unknown attributes are rejected, and
every other attribute is coerced then configured and appended to the attribute
map.  Supplied keys are distinct because the input is a dict. -/
def coerceEntriesLoop (rule : RuleSchema) (internalAttrs : List String) :
    List (String × RawValue) → Option TargetLabel → List (String × ConfiguredAttr) →
    Except AnyError (Option TargetLabel × List (String × ConfiguredAttr))
  | [], name, attrs => .ok (name, attrs)
  | (k, v) :: rest, name, attrs =>
    if k = "name" then
      match coerce_name v with
      | .error e => .error e
      | .ok n => coerceEntriesLoop rule internalAttrs rest (some n) attrs
    else if internalAttrs.contains k then
      .error (.anon (.InternalAttribute k))
    else
      match lookupKey k rule.attr_specs with
      | none => .error (.anon (.UnknownAttribute k))
      | some attr =>
        match coerce_attr attr v with
        | .error e => .error e
        | .ok c => coerceEntriesLoop rule internalAttrs rest name (attrs ++ [(k, c)])

/-- Second loop of `AnonTargetKey::new` (lines 163-171): walk the schema's
attribute specs in order; every declared attribute that was not supplied and
is not internal takes its configured default, or fails with
`MissingAttribute` if it has none. -/
def applyDefaultsLoop (internalAttrs : List String) :
    List (String × Attribute) → List (String × ConfiguredAttr) →
    Except AnyError (List (String × ConfiguredAttr))
  | [], attrs => .ok attrs
  | (k, a) :: rest, attrs =>
    if ¬ containsKey attrs k ∧ ¬ internalAttrs.contains k then
      match a.default with
      | some x =>
        match configure_attr x with
        | .error e => .error e
        | .ok c => applyDefaultsLoop internalAttrs rest (attrs ++ [(k, c)])
      | none => .error (.anon (.MissingAttribute k))
    else
      applyDefaultsLoop internalAttrs rest attrs

/-- `AnonTargetKey::new` (lines 136-186).  The set of internal/reserved
attribute names (`buck2_node::attrs::internal::internal_attrs`, not under
`src/`) is passed explicitly. -/
def new (execution_platform : ExecutionPlatformResolution) (rule : RuleSchema)
    (internalAttrs : List String) (attributes : List (String × RawValue)) :
    Except AnyError AnonTarget :=
  match coerceEntriesLoop rule internalAttrs attributes none [] with
  | .error e => .error e
  | .ok (nameOpt, attrs0) =>
    match applyDefaultsLoop internalAttrs rule.attr_specs attrs0 with
    | .error e => .error e
    | .ok attrs =>
      match (match nameOpt with
             | none => create_name rule.rule_name
             | some n => (.ok n : Except AnyError TargetLabel)) with
      | .error e => .error e
      | .ok name =>
        .ok { rule_type := rule.rule_name
              name := name
              attrs := attrs
              exec_cfg := execution_platform.cfg }

end AnonTargetKey

/-- Frozen provider collection value (`FrozenProviderCollectionValue`),
abstract: an opaque frozen value identified by a token. -/
structure FrozenProviderCollectionValue where
  token : Nat
deriving DecidableEq, Repr

/-- Deferred-action table (`DeferredTable`), abstract. -/
structure DeferredTable where
  token : Nat
deriving DecidableEq, Repr

/-- Analysis result (`crate::analysis::AnalysisResult`): frozen provider
collection, deferred-action table, optional extra. -/
structure AnalysisResult where
  provider_collection : FrozenProviderCollectionValue
  deferred_table : DeferredTable
  extra : Option Nat
deriving DecidableEq, Repr

/-- Errors surfaced by the external incremental engine / dependency
resolution (`buck2_common::result::SharedError`, `anyhow` at the resolution
boundary), abstract. -/
abbrev BuckError := String

/-- Cached value type of the DICE key for anonymous-target analysis
(`SharedResult<AnalysisResult>`). -/
abbrev SharedResultAnalysis := Except BuckError AnalysisResult

/-- `Key::equality` of the `impl Key for AnonTargetKey` inside
`AnonTargetKey::resolve` (lines 260-271): the cached analysis-result value is
never considered equal to another, so it is always treated as changed. -/
def AnonTargetKey.keyValueEquality (_x _y : SharedResultAnalysis) : Bool :=
  false

/-- Per-analysis-scope registry of pending anonymous-target promises
(`AnonTargetsRegistry`, lines 94-104): the inherited execution platform plus
the ordered entries, each a promise handle (modelled by an identifier) with
either a single key or a list of keys. -/
structure AnonTargetsRegistry where
  execution_platform : ExecutionPlatformResolution
  entries : List (Nat × Sum AnonTarget (List AnonTarget))
deriving DecidableEq, Repr

namespace AnonTargetsRegistry

/-- `AnonTargetsRegistry::new` (lines 453-458). -/
def new (execution_platform : ExecutionPlatformResolution) : AnonTargetsRegistry :=
  { execution_platform := execution_platform, entries := [] }

/-- `AnonTargetsRegistry::register_one` (lines 460-475): build one key under
the inherited execution platform and append it as a `Left` entry; a failing
coercion leaves the registry untouched. -/
def register_one (self : AnonTargetsRegistry) (promise : Nat) (rule : RuleSchema)
    (internalAttrs : List String) (attributes : List (String × RawValue)) :
    Except AnyError AnonTargetsRegistry :=
  match AnonTargetKey.new self.execution_platform rule internalAttrs attributes with
  | .error e => .error e
  | .ok key =>
    .ok { self with entries := self.entries ++ [(promise, Sum.inl key)] }

/-- Key-building loop of `register_many` (`rules.into_try_map`): the whole
batch fails if any single coercion fails. -/
def buildKeys (ep : ExecutionPlatformResolution) (internalAttrs : List String) :
    List (RuleSchema × List (String × RawValue)) → Except AnyError (List AnonTarget)
  | [] => .ok []
  | (rule, attributes) :: rest =>
    match AnonTargetKey.new ep rule internalAttrs attributes with
    | .error e => .error e
    | .ok key =>
      match buildKeys ep internalAttrs rest with
      | .error e => .error e
      | .ok keys => .ok (key :: keys)

/-- `AnonTargetsRegistry::register_many` (lines 477-490). -/
def register_many (self : AnonTargetsRegistry) (promise : Nat)
    (internalAttrs : List String)
    (rules : List (RuleSchema × List (String × RawValue))) :
    Except AnyError AnonTargetsRegistry :=
  match buildKeys self.execution_platform internalAttrs rules with
  | .error e => .error e
  | .ok keys =>
    .ok { self with entries := self.entries ++ [(promise, Sum.inr keys)] }

/-- `AnonTargetsRegistry::get_promises` (lines 492-501): if there are no
entries, nothing is returned and the registry is untouched; otherwise the
registry is swapped for a fresh one with the same execution platform and the
old registry is returned as the drained batch.  The pair is
(returned batch, registry state afterwards). -/
def get_promises (self : AnonTargetsRegistry) :
    Option AnonTargetsRegistry × AnonTargetsRegistry :=
  if self.entries.isEmpty then
    (none, self)
  else
    (some self, AnonTargetsRegistry.new self.execution_platform)

/-- `AnonTargetsRegistry::assert_no_promises` (lines 554-561). -/
def assert_no_promises (self : AnonTargetsRegistry) : Except AnyError Unit :=
  if self.entries.isEmpty then .ok ()
  else .error (.anon .AssertNoPromisesFailed)

end AnonTargetsRegistry

/-- Value a promise is bound with by `run_promises`: a single frozen provider
collection for a `Left` entry, a newly allocated list for a `Right` entry. -/
inductive PromiseBinding
  | single (v : FrozenProviderCollectionValue)
  | list (vs : List FrozenProviderCollectionValue)
deriving DecidableEq, Repr

/-- Observable outcome of `run_promises`: an error from resolving the batch,
a panic from out-of-bounds indexing into the resolved values, or the ordered
list of promise bindings. -/
inductive RunPromisesOutcome
  | error (e : BuckError)
  | panic
  | bound (bs : List (Nat × PromiseBinding))
deriving DecidableEq, Repr

namespace AnonTargetsRegistry

/-- Shape-building loop of `run_promises` (lines 510-523), verbatim: for a
single entry the recorded index is `shape.len()` at the time of the push, and
for a list entry the recorded range is `shape.len() .. shape.len() + xs.len()`
(stored as a start/stop pair), while the keys are appended to the flat
`targets` vector. -/
def shapeTargets :
    List (Nat × Sum AnonTarget (List AnonTarget)) →
    List (Nat × Sum Nat (Nat × Nat)) → List AnonTarget →
    List (Nat × Sum Nat (Nat × Nat)) × List AnonTarget
  | [], shape, targets => (shape, targets)
  | (p, .inl x) :: rest, shape, targets =>
    shapeTargets rest (shape ++ [(p, Sum.inl shape.length)]) (targets ++ [x])
  | (p, .inr xs) :: rest, shape, targets =>
    shapeTargets rest (shape ++ [(p, Sum.inr (shape.length, shape.length + xs.length))])
      (targets ++ xs)

/-- Resolution fan-out of `run_promises`
(`future::try_join_all(targets.iter().map(...))`, line 525-526): resolve
every flattened key; any failure fails the whole join and nothing is bound. -/
def tryJoinAll (res : AnonTarget → Except BuckError AnalysisResult) :
    List AnonTarget → Except BuckError (List AnalysisResult)
  | [] => .ok []
  | t :: ts =>
    match res t with
    | .error e => .error e
    | .ok v =>
      match tryJoinAll res ts with
      | .error e => .error e
      | .ok vs => .ok (v :: vs)

/-- Indexing loop for a list entry (`is.map(|i| values[i]...)`, lines
538-545): collect `count` provider collections starting at index `start`;
`none` models the panic of an out-of-bounds `values[i]`. -/
def collectRange (values : List AnalysisResult) :
    Nat → Nat → Option (List FrozenProviderCollectionValue)
  | _, 0 => some []
  | i, count + 1 =>
    match values.get? i with
    | none => none
    | some v =>
      match collectRange values (i + 1) count with
      | none => none
      | some vs => some (v.provider_collection :: vs)

/-- Sequential promise-binding loop of `run_promises` (lines 527-550): walk
the shape in original registration order, binding each promise to
`values[i]`'s providers (single) or to the list of providers over the
recorded range; `none` models the panic of an out-of-bounds index. -/
def bindShape (values : List AnalysisResult) :
    List (Nat × Sum Nat (Nat × Nat)) → Option (List (Nat × PromiseBinding))
  | [] => some []
  | (p, .inl i) :: rest =>
    match values.get? i with
    | none => none
    | some v =>
      match bindShape values rest with
      | none => none
      | some bs => some ((p, PromiseBinding.single v.provider_collection) :: bs)
  | (p, .inr (start, stop)) :: rest =>
    match collectRange values start (stop - start) with
    | none => none
    | some vs =>
      match bindShape values rest with
      | none => none
      | some bs => some ((p, PromiseBinding.list vs) :: bs)

/-- `AnonTargetsRegistry::run_promises` (lines 503-552), with the external
DICE resolution of one key passed in as `res`. -/
def run_promises (res : AnonTarget → Except BuckError AnalysisResult)
    (self : AnonTargetsRegistry) : RunPromisesOutcome :=
  let st := shapeTargets self.entries [] []
  match tryJoinAll res st.2 with
  | .error e => .error e
  | .ok values =>
    match bindShape values st.1 with
    | none => .panic
    | some bs => .bound bs

/-- Flattened sequence of every key referenced by a batch, in entry order
(what the spec calls the "one ordered sequence" the recorded indices are
meant to point into). -/
def flatKeys (entries : List (Nat × Sum AnonTarget (List AnonTarget))) :
    List AnonTarget :=
  entries.flatMap (fun e =>
    match e.2 with
    | .inl k => [k]
    | .inr ks => ks)

end AnonTargetsRegistry

/-- Error projection of an `Except` value. -/
def exceptErr {E A : Type} : Except E A → Option E
  | .error e => some e
  | .ok _ => none

/-- Success projection of an `Except` value. -/
def exceptOk {E A : Type} : Except E A → Option A
  | .error _ => none
  | .ok a => some a

/-- Decidable equality for `Except` values with decidable components. -/
instance {E A : Type} [DecidableEq E] [DecidableEq A] : DecidableEq (Except E A) :=
  fun x y =>
    match x, y with
    | .error a, .error b => decidable_of_iff (a = b) (by simp)
    | .error _, .ok _ => .isFalse (by simp)
    | .ok _, .error _ => .isFalse (by simp)
    | .ok a, .ok b => decidable_of_iff (a = b) (by simp)

/-- Modelled from the spec: `keep_going::try_join_all`
(`buck2_build_api::keep_going`, not under `src/`) resolves all branches,
attempting every one even after some fail, and if any failed the whole call
fails with the aggregated error context of all failing branches. -/
def keepGoingTryJoinAll {E A : Type} (xs : List (Except E A)) :
    Except (List E) (List A) :=
  match xs.filterMap exceptErr with
  | [] => .ok (xs.filterMap exceptOk)
  | e :: es => .error (e :: es)

/-- Dependency labels of one configured attribute
(`ConfiguredAttrTraversal` in `AnonTargetKey::deps`, lines 284-299: only the
`dep` hook pushes, so only dependency attributes contribute). -/
def ConfiguredAttr.depLabels : ConfiguredAttr → List ConfiguredTargetLabel
  | .configured_dep _ l => [l.target]
  | _ => []

/-- `AnonTargetKey::deps` (lines 284-299): traverse every configured
attribute in order and collect every referenced dependency label. -/
def AnonTarget.deps (t : AnonTarget) : List ConfiguredTargetLabel :=
  t.attrs.flatMap (fun kv => kv.2.depLabels)

/-- One dependency fetch of `run_analysis_impl`'s fan-out: the analysis
result of the dependency, paired with the dependency's label. -/
def fetchDep (get : ConfiguredTargetLabel → Except BuckError AnalysisResult)
    (d : ConfiguredTargetLabel) :
    Except BuckError (ConfiguredTargetLabel × AnalysisResult) :=
  match get d with
  | .error e => .error e
  | .ok r => .ok (d, r)

/-- Dependency-resolution phase of `AnonTargetKey::run_analysis_impl`
(lines 306-318): fetch the analysis result of every dependency through the
keep-going join, pairing each dependency with its result. -/
def runAnalysisDeps (get : ConfiguredTargetLabel → Except BuckError AnalysisResult)
    (key : AnonTarget) :
    Except (List BuckError) (List (ConfiguredTargetLabel × AnalysisResult)) :=
  keepGoingTryJoinAll (key.deps.map (fetchDep get))

/-- Remainder of `run_analysis_impl` after the dependency phase (attribute
resolution, rule invocation, nested promise draining, freezing) abstracted as
a continuation `ruleImpl`; the whole resolve of the key fails if the
dependency phase fails. -/
def runAnalysisModel (get : ConfiguredTargetLabel → Except BuckError AnalysisResult)
    (ruleImpl : List (ConfiguredTargetLabel × AnalysisResult) →
      Except BuckError AnalysisResult)
    (key : AnonTarget) : Except (List BuckError) AnalysisResult :=
  match runAnalysisDeps get key with
  | .error es => .error es
  | .ok depResults =>
    match ruleImpl depResults with
    | .error e => .error [e]
    | .ok r => .ok r

/-- String hash used by the spec-modelled descriptor hash. -/
def strHash (s : String) : Nat :=
  s.data.foldl (fun h c => h * 31 + c.toNat) 7

/-- Label hash used by the spec-modelled descriptor hash. -/
def labelHash (l : TargetLabel) : Nat :=
  strHash l.cell * 3 + strHash l.package * 5 + strHash l.target * 7

/-- Structural hash of one configured attribute value. -/
def configuredAttrHash : ConfiguredAttr → Nat
  | .string s => 2 + strHash s
  | .int i => 3 + i.natAbs
  | .bool b => 5 + (if b then 1 else 0)
  | .label l => 7 + labelHash l.target.label
  | .source p => 11 + strHash p.path
  | .query q => 13 + strHash q
  | .configured_dep _ l => 17 + labelHash l.target.label

/-- Hash of one attribute-map entry. -/
def attrEntryHash (kv : String × ConfiguredAttr) : Nat :=
  strHash kv.1 * 13 + configuredAttrHash kv.2

/-- Modelled from the spec: the attribute-map hash of the descriptor
(`OrderedMap`'s `Hash`, `buck2_core::collections::ordered_map`, not under
`src/`) combines the entry hashes order-independently, here by summing. -/
def attrsHash (attrs : List (String × ConfiguredAttr)) : Nat :=
  (attrs.map attrEntryHash).sum

/-- Hash of a configuration. -/
def cfgHash : Configuration → Nat
  | .unspecified => 1
  | .named s => 2 + strHash s

/-- Modelled from the spec: the descriptor hash (`Hash` derived on
`AnonTarget`, not under `src/`) is by value over all four fields, with the
attribute map hashed order-independently. -/
def anonTargetHash (a : AnonTarget) : Nat :=
  strHash a.rule_type + labelHash a.name + attrsHash a.attrs + cfgHash a.exec_cfg

/-- Unordered-mapping equality of two attribute maps: every entry of each map
is bound to the same value in the other. -/
def attrsEqUnordered (a b : List (String × ConfiguredAttr)) : Bool :=
  a.all (fun kv => decide (lookupKey kv.1 b = some kv.2)) &&
  b.all (fun kv => decide (lookupKey kv.1 a = some kv.2))

/-- Modelled from the spec: descriptor equality (`Eq`/`PartialEq` on
`AnonTarget`, not under `src/`) is by value over all four fields, not by
allocation identity, with the attribute map compared as an unordered
name-to-value mapping. -/
def anonTargetEq (a b : AnonTarget) : Bool :=
  decide (a.rule_type = b.rule_type) && decide (a.name = b.name) &&
  attrsEqUnordered a.attrs b.attrs && decide (a.exec_cfg = b.exec_cfg)

/-- Per-entry image of the supplied-attribute loop: a non-`name` entry whose
coercion succeeds contributes its configured binding, in input order; used to
characterize `coerceEntriesLoop`. -/
def entryOut (rule : RuleSchema) (kv : String × RawValue) :
    Option (String × ConfiguredAttr) :=
  if kv.1 = "name" then none
  else
    match lookupKey kv.1 rule.attr_specs with
    | none => none
    | some attr =>
      match AnonTargetKey.coerce_attr attr kv.2 with
      | .error _ => none
      | .ok c => some (kv.1, c)

/-- Name accumulated by the supplied-attribute loop: the last `name` entry's
coerced label, if any; used to characterize `coerceEntriesLoop`. -/
def nameFold (e : List (String × RawValue)) (nm : Option TargetLabel) :
    Option TargetLabel :=
  e.foldl
    (fun acc kv =>
      if kv.1 = "name" then (AnonTargetKey.coerce_name kv.2).toOption else acc)
    nm

/-- Concrete anonymous-target key used by concrete evaluations: an
attribute-free target of rule `r` named in the reserved anon namespace. -/
def anonKeyStub (nm : String) : AnonTarget :=
  { rule_type := "r"
    name := { cell := "anon", package := "", target := nm }
    attrs := []
    exec_cfg := Configuration.unspecified }

/-- Concrete resolver for the three stub keys, giving each its own provider
collection token. -/
def resolveStub (t : AnonTarget) : Except BuckError AnalysisResult :=
  if t = anonKeyStub "k0" then .ok ⟨⟨0⟩, ⟨0⟩, none⟩
  else if t = anonKeyStub "k1" then .ok ⟨⟨1⟩, ⟨1⟩, none⟩
  else if t = anonKeyStub "k2" then .ok ⟨⟨2⟩, ⟨2⟩, none⟩
  else .error "unknown key"

/-- Concrete drained batch: a list entry of two keys followed by a single
entry, the mix on which the recorded indices and the flattened key sequence
disagree. -/
def buggyBatch : AnonTargetsRegistry :=
  { execution_platform := { cfg := Configuration.unspecified }
    entries :=
      [(1, Sum.inr [anonKeyStub "k0", anonKeyStub "k1"]),
       (2, Sum.inl (anonKeyStub "k2"))] }

/-- Concrete key with two dependency-typed attributes, for exercising the
dependency fan-out. -/
def depKeyStub : AnonTarget :=
  { rule_type := "r"
    name := { cell := "anon", package := "", target := "r" }
    attrs :=
      [("d1", ConfiguredAttr.configured_dep { required_providers := [], transition := .identity }
          { target := { label := { cell := "", package := "p", target := "t1" },
                        cfg := Configuration.unspecified },
            name := .default }),
       ("d2", ConfiguredAttr.configured_dep { required_providers := [], transition := .identity }
          { target := { label := { cell := "", package := "p", target := "t2" },
                        cfg := Configuration.unspecified },
            name := .default })]
    exec_cfg := Configuration.unspecified }

/-- Concrete dependency-analysis accessor that fails on every label with an
error naming the label's target. -/
def failingGetStub (d : ConfiguredTargetLabel) : Except BuckError AnalysisResult :=
  .error ("missing " ++ d.label.target)

/-- Error projection of one dependency fetch, used to state what the
aggregated keep-going error contains. -/
def depErrOf (get : ConfiguredTargetLabel → Except BuckError AnalysisResult)
    (d : ConfiguredTargetLabel) : Option BuckError :=
  match get d with
  | .error e => some e
  | .ok _ => none

/-- The supplied-attribute loop leaves the accumulated name untouched when no
`name` entry occurs in the input. -/
theorem coerceEntriesLoop_name_of_not_mem (rule : RuleSchema) (ia : List String) :
    ∀ (e : List (String × RawValue)) (nm : Option TargetLabel)
      (a : List (String × ConfiguredAttr)) r,
      "name" ∉ e.map Prod.fst →
      AnonTargetKey.coerceEntriesLoop rule ia e nm a = .ok r → r.1 = nm := by
  intro e
  induction e with
  | nil =>
    intro nm a r _ h
    simp only [AnonTargetKey.coerceEntriesLoop, Except.ok.injEq] at h
    rw [← h]
  | cons kv rest ih =>
    intro nm a r hmem h
    obtain ⟨k, v⟩ := kv
    have hk : ¬ (k = "name") := by
      intro hEq
      exact hmem (by simp [hEq])
    have hmem' : "name" ∉ rest.map Prod.fst := by
      intro hc
      exact hmem (by simp [hc])
    simp only [AnonTargetKey.coerceEntriesLoop] at h
    rw [if_neg hk] at h
    split at h
    · simp at h
    · split at h
      · simp at h
      · split at h
        · simp at h
        · exact ih _ _ _ hmem' h

/-- The flat `targets` vector built by the shape loop is the flattened key
sequence of the batch, appended to the accumulator. -/
theorem shapeTargets_snd :
    ∀ (entries : List (Nat × Sum AnonTarget (List AnonTarget)))
      (shape : List (Nat × Sum Nat (Nat × Nat))) (targets : List AnonTarget),
      (AnonTargetsRegistry.shapeTargets entries shape targets).2
        = targets ++ AnonTargetsRegistry.flatKeys entries := by
  intro entries
  induction entries with
  | nil =>
    intro shape targets
    simp [AnonTargetsRegistry.shapeTargets, AnonTargetsRegistry.flatKeys]
  | cons e rest ih =>
    intro shape targets
    obtain ⟨p, x⟩ := e
    cases x with
    | inl k =>
      simp only [AnonTargetsRegistry.shapeTargets]
      rw [ih]
      simp [AnonTargetsRegistry.flatKeys]
    | inr ks =>
      simp only [AnonTargetsRegistry.shapeTargets]
      rw [ih]
      simp [AnonTargetsRegistry.flatKeys]

/-- If any listed key fails to resolve, the joined resolution fails. -/
theorem tryJoinAll_error_of_mem (res : AnonTarget → Except BuckError AnalysisResult) :
    ∀ (ts : List AnonTarget) (t : AnonTarget) (e : BuckError),
      t ∈ ts → res t = .error e →
      ∃ e', AnonTargetsRegistry.tryJoinAll res ts = .error e' := by
  intro ts
  induction ts with
  | nil =>
    intro t e h
    simp at h
  | cons hd tl ih =>
    intro t e hmem herr
    simp only [AnonTargetsRegistry.tryJoinAll]
    cases hres : res hd with
    | error e0 => exact ⟨e0, rfl⟩
    | ok v =>
      have htl : t ∈ tl := by
        rcases List.mem_cons.mp hmem with h1 | h1
        · rw [h1] at herr
          rw [herr] at hres
          simp at hres
        · exact h1
      obtain ⟨e', h'⟩ := ih t e htl herr
      rw [h']
      exact ⟨e', rfl⟩

/-- Claim C2: for every drained batch, if the resolution of any key in the
batch fails, `run_promises` returns an error and no promise in the batch is
bound — resolution of all flattened keys is joined before any binding, and a
batch with a failing key binds zero promises. -/
theorem run_promises_all_or_nothing
    (res : AnonTarget → Except BuckError AnalysisResult)
    (reg : AnonTargetsRegistry)
    (h : ∃ t ∈ AnonTargetsRegistry.flatKeys reg.entries, ∃ e, res t = .error e) :
    (∃ e, AnonTargetsRegistry.run_promises res reg = .error e)
    ∧ ∀ bs, AnonTargetsRegistry.run_promises res reg ≠ .bound bs := by
  obtain ⟨t, ht, e, he⟩ := h
  have htmem : t ∈ (AnonTargetsRegistry.shapeTargets reg.entries [] []).2 := by
    rw [shapeTargets_snd]
    simpa using ht
  obtain ⟨e', herr⟩ := tryJoinAll_error_of_mem res _ t e htmem he
  constructor
  · exact ⟨e', by simp [AnonTargetsRegistry.run_promises, herr]⟩
  · intro bs hb
    simp [AnonTargetsRegistry.run_promises, herr] at hb

/-- Witness for C2 at a concrete batch: one single entry whose key fails to
resolve yields an error outcome. -/
theorem run_promises_all_or_nothing_witness :
    (∃ t ∈ AnonTargetsRegistry.flatKeys
        [(0, Sum.inl (anonKeyStub "kx"))], ∃ e,
        (fun _ : AnonTarget => (.error "boom" : Except BuckError AnalysisResult)) t = .error e)
    ∧ (∃ e, AnonTargetsRegistry.run_promises
        (fun _ => .error "boom")
        { execution_platform := { cfg := Configuration.unspecified }
          entries := [(0, Sum.inl (anonKeyStub "kx"))] } = .error e) :=
  ⟨⟨anonKeyStub "kx", by decide, "boom", rfl⟩,
   (run_promises_all_or_nothing (fun _ => .error "boom")
      { execution_platform := { cfg := Configuration.unspecified }
        entries := [(0, Sum.inl (anonKeyStub "kx"))] }
      ⟨anonKeyStub "kx", by decide, "boom", rfl⟩).1⟩

/-- Claim C1 (failing evaluation): on the batch `[List [k0, k1], Single k2]`
the recorded index for the single entry is 1 (the number of prior entries)
while its key `k2` sits at position 2 of the flattened key sequence, so
`run_promises` binds the single entry's promise to `k1`'s frozen providers
(token 1) instead of its own key's providers (token 2). -/
theorem run_promises_misbinds_single_after_list :
    AnonTargetsRegistry.flatKeys buggyBatch.entries
      = [anonKeyStub "k0", anonKeyStub "k1", anonKeyStub "k2"]
    ∧ (AnonTargetsRegistry.shapeTargets buggyBatch.entries [] []).1
      = [(1, Sum.inr (0, 2)), (2, Sum.inl 1)]
    ∧ resolveStub (anonKeyStub "k2") = .ok ⟨⟨2⟩, ⟨2⟩, none⟩
    ∧ AnonTargetsRegistry.run_promises resolveStub buggyBatch
      = .bound [(1, PromiseBinding.list [⟨0⟩, ⟨1⟩]), (2, PromiseBinding.single ⟨1⟩)]
    ∧ PromiseBinding.single ⟨1⟩ ≠ PromiseBinding.single ⟨2⟩ := by
  refine ⟨by decide, by decide, by decide, by decide, by decide⟩

/-- The keep-going join fails with exactly the aggregated list of all branch
errors whenever that list is non-empty. -/
theorem keepGoingTryJoinAll_error {E A : Type} (xs : List (Except E A))
    (h : xs.filterMap exceptErr ≠ []) :
    keepGoingTryJoinAll xs = .error (xs.filterMap exceptErr) := by
  unfold keepGoingTryJoinAll
  cases hl : xs.filterMap exceptErr with
  | nil => exact absurd hl h
  | cons a as => simp [hl]

/-- Claim C6: dependency analysis results are resolved with a keep-going
join — if any dependency of a key fails, the dependency phase (and with it
the whole resolve of the key) fails with the aggregated errors of every
failing dependency, not just the first. -/
theorem run_analysis_keep_going
    (get : ConfiguredTargetLabel → Except BuckError AnalysisResult)
    (ruleImpl : List (ConfiguredTargetLabel × AnalysisResult) →
      Except BuckError AnalysisResult)
    (key : AnonTarget)
    (h : ∃ d ∈ key.deps, ∃ e, get d = .error e) :
    runAnalysisDeps get key = .error (key.deps.filterMap (depErrOf get))
    ∧ key.deps.filterMap (depErrOf get) ≠ []
    ∧ runAnalysisModel get ruleImpl key
        = .error (key.deps.filterMap (depErrOf get)) := by
  obtain ⟨d, hd, e, he⟩ := h
  have hmem : e ∈ key.deps.filterMap (depErrOf get) :=
    List.mem_filterMap.mpr ⟨d, hd, by simp [depErrOf, he]⟩
  have hne : key.deps.filterMap (depErrOf get) ≠ [] := by
    intro hc
    rw [hc] at hmem
    simp at hmem
  have heq : (key.deps.map (fetchDep get)).filterMap exceptErr
      = key.deps.filterMap (depErrOf get) := by
    rw [List.filterMap_map]
    congr 1
    funext d'
    cases hg : get d' <;> simp [depErrOf, fetchDep, exceptErr, hg, Function.comp]
  have hdeps : runAnalysisDeps get key = .error (key.deps.filterMap (depErrOf get)) := by
    unfold runAnalysisDeps
    rw [keepGoingTryJoinAll_error _ (by rw [heq]; exact hne), heq]
  refine ⟨hdeps, hne, ?_⟩
  simp [runAnalysisModel, hdeps]

/-- Witness for C6 at a concrete key with two failing dependencies: the
aggregated error names both of them. -/
theorem run_analysis_keep_going_witness :
    (∃ d ∈ depKeyStub.deps, ∃ e, failingGetStub d = .error e)
    ∧ runAnalysisDeps failingGetStub depKeyStub
        = .error (depKeyStub.deps.filterMap (depErrOf failingGetStub))
    ∧ depKeyStub.deps.filterMap (depErrOf failingGetStub)
        = ["missing t1", "missing t2"] :=
  ⟨⟨{ label := { cell := "", package := "p", target := "t1" },
      cfg := Configuration.unspecified }, by decide, _, rfl⟩,
   (run_analysis_keep_going failingGetStub (fun _ => .ok ⟨⟨0⟩, ⟨0⟩, none⟩) depKeyStub
      ⟨{ label := { cell := "", package := "p", target := "t1" },
         cfg := Configuration.unspecified }, by decide, _, rfl⟩).1,
   by decide⟩

/-- Claim C7: the memoization key's value-equality predicate returns `false`
for every pair of cached analysis-result values, so a cached
anonymous-target analysis result is always treated as changed. -/
theorem anon_key_value_equality_always_false (x y : SharedResultAnalysis) :
    AnonTargetKey.keyValueEquality x y = false :=
  rfl

/-- Claim C8: for non-dependency-typed attributes, every attempt to coerce a
label, source path, target pattern, or query literal from a raw string fails
with `CantParseDuringCoerce` carrying the offending string, and the neutral
coercion context never successfully parses such strings. -/
theorem anon_coercion_cant_parse_strings (s : String) :
    AnonAttrCtx.new.coerce_label s = .error (.anon (.CantParseDuringCoerce s))
    ∧ (∀ allow_directory,
        AnonAttrCtx.new.coerce_path s allow_directory
          = .error (.anon (.CantParseDuringCoerce s)))
    ∧ AnonAttrCtx.new.coerce_target_pattern s
        = .error (.anon (.CantParseDuringCoerce s))
    ∧ AnonAttrCtx.new.visit_query_function_literals s
        = .error (.anon (.CantParseDuringCoerce s))
    ∧ (∀ dflt, AnonTargetKey.unpack_dep AttrTypeInner.label_t = none
        ∧ AnonTargetKey.coerce_attr { coercer := AttrTypeInner.label_t, default := dflt }
            (.str s) = .error (.anon (.CantParseDuringCoerce s)))
    ∧ (∀ dflt, AnonTargetKey.unpack_dep AttrTypeInner.source_t = none
        ∧ AnonTargetKey.coerce_attr { coercer := AttrTypeInner.source_t, default := dflt }
            (.str s) = .error (.anon (.CantParseDuringCoerce s)))
    ∧ (∀ dflt, AnonTargetKey.unpack_dep AttrTypeInner.query_t = none
        ∧ AnonTargetKey.coerce_attr { coercer := AttrTypeInner.query_t, default := dflt }
            (.str s) = .error (.anon (.CantParseDuringCoerce s))) :=
  ⟨rfl, fun _ => rfl, rfl, rfl,
   fun _ => ⟨rfl, rfl⟩, fun _ => ⟨rfl, rfl⟩, fun _ => ⟨rfl, rfl⟩⟩

/-- Claim C4: with no `name` entry, coercion synthesizes a well-formed label
in the reserved `anon` cell derived from the rule's own name, for every rule;
a supplied `name` string that does not parse as `[cell//]package:target`
fails with `NotTargetLabel`, while `//foo:bar` parses successfully. -/
theorem anon_name_synthesis_and_parse :
    (∀ rule_name, AnonTargetKey.create_name rule_name
        = .ok { cell := "anon", package := "", target := rule_name })
    ∧ (∀ (ep : ExecutionPlatformResolution) (rule : RuleSchema)
          (ia : List String) (e : List (String × RawValue)) (key : AnonTarget),
        "name" ∉ e.map Prod.fst →
        AnonTargetKey.new ep rule ia e = .ok key →
        key.name = { cell := "anon", package := "", target := rule.rule_name })
    ∧ AnonTargetKey.parse_target_label "//foo:bar"
        = .ok { cell := "", package := "foo", target := "bar" }
    ∧ AnonTargetKey.parse_target_label "foo"
        = .error (.anon (.NotTargetLabel "foo"))
    ∧ AnonTargetKey.parse_target_label "//foo:"
        = .error (.anon (.NotTargetLabel "//foo:")) := by
  refine ⟨fun _ => rfl, ?_, by decide, by decide, by decide⟩
  intro ep rule ia e key hmem hnew
  cases h1 : AnonTargetKey.coerceEntriesLoop rule ia e none [] with
  | error er => simp [AnonTargetKey.new, h1] at hnew
  | ok pr =>
    obtain ⟨nm, attrs0⟩ := pr
    have hnm : nm = none :=
      coerceEntriesLoop_name_of_not_mem rule ia e none [] (nm, attrs0) hmem h1
    subst hnm
    cases h2 : AnonTargetKey.applyDefaultsLoop ia rule.attr_specs attrs0 with
    | error er => simp [AnonTargetKey.new, h1, h2] at hnew
    | ok attrs =>
      simp only [AnonTargetKey.new, h1, h2, AnonTargetKey.create_name,
        Except.ok.injEq] at hnew
      subst hnew
      rfl

/-- Witness for C4's implication at a concrete rule with no supplied
attributes: the built key's name is the synthesized anon label. -/
theorem anon_name_synthesis_witness :
    ("name" ∉ ([] : List (String × RawValue)).map Prod.fst)
    ∧ AnonTargetKey.new { cfg := Configuration.unspecified }
        { rule_name := "r", attr_specs := [] } [] [] = .ok (anonKeyStub "r")
    ∧ (anonKeyStub "r").name = { cell := "anon", package := "", target := "r" } := by
  refine ⟨by decide, by decide, ?_⟩
  exact anon_name_synthesis_and_parse.2.1
    { cfg := Configuration.unspecified }
    { rule_name := "r", attr_specs := [] } [] [] (anonKeyStub "r")
    (by decide) (by decide)

/-- Claim C10: draining and registering leave the registry's inherited
execution platform unchanged; draining a non-empty registry returns all
previously registered entries in registration order and leaves the registry
empty; draining an empty registry returns nothing and changes nothing. -/
theorem registry_drain_frame (r : AnonTargetsRegistry) :
    (r.get_promises.2.execution_platform = r.execution_platform)
    ∧ (r.entries ≠ [] →
        r.get_promises.1 = some r ∧ r.get_promises.2.entries = [])
    ∧ (r.entries = [] →
        r.get_promises.1 = none ∧ r.get_promises.2 = r)
    ∧ (∀ p rule ia attrs r',
        r.register_one p rule ia attrs = .ok r' →
        r'.execution_platform = r.execution_platform
        ∧ ∃ k, AnonTargetKey.new r.execution_platform rule ia attrs = .ok k
            ∧ r'.entries = r.entries ++ [(p, Sum.inl k)])
    ∧ (∀ p ia rules r',
        r.register_many p ia rules = .ok r' →
        r'.execution_platform = r.execution_platform
        ∧ ∃ ks, AnonTargetsRegistry.buildKeys r.execution_platform ia rules = .ok ks
            ∧ r'.entries = r.entries ++ [(p, Sum.inr ks)]) := by
  refine ⟨?_, ?_, ?_, ?_, ?_⟩
  · cases hl : r.entries with
    | nil => simp [AnonTargetsRegistry.get_promises, hl]
    | cons a as =>
      simp [AnonTargetsRegistry.get_promises, hl, AnonTargetsRegistry.new]
  · intro hne
    cases hl : r.entries with
    | nil => exact absurd hl hne
    | cons a as =>
      simp [AnonTargetsRegistry.get_promises, hl, AnonTargetsRegistry.new]
  · intro hnil
    simp [AnonTargetsRegistry.get_promises, hnil]
  · intro p rule ia attrs r' hreg
    cases hk : AnonTargetKey.new r.execution_platform rule ia attrs with
    | error e => simp [AnonTargetsRegistry.register_one, hk] at hreg
    | ok k =>
      simp only [AnonTargetsRegistry.register_one, hk, Except.ok.injEq] at hreg
      subst hreg
      exact ⟨rfl, k, rfl, rfl⟩
  · intro p ia rules r' hreg
    cases hk : AnonTargetsRegistry.buildKeys r.execution_platform ia rules with
    | error e => simp [AnonTargetsRegistry.register_many, hk] at hreg
    | ok ks =>
      simp only [AnonTargetsRegistry.register_many, hk, Except.ok.injEq] at hreg
      subst hreg
      exact ⟨rfl, ks, rfl, rfl⟩

/-- Witness for C10 at concrete registries: a non-empty drain returns the
batch and empties the registry, an empty drain returns nothing, and concrete
registrations extend the entries while keeping the platform. -/
theorem registry_drain_frame_witness :
    (([(0, Sum.inl (anonKeyStub "k0"))] :
        List (Nat × Sum AnonTarget (List AnonTarget))) ≠ [])
    ∧ ((AnonTargetsRegistry.mk { cfg := Configuration.named "plat" }
          [(0, Sum.inl (anonKeyStub "k0"))]).get_promises.1
        = some (AnonTargetsRegistry.mk { cfg := Configuration.named "plat" }
            [(0, Sum.inl (anonKeyStub "k0"))])
        ∧ (AnonTargetsRegistry.mk { cfg := Configuration.named "plat" }
            [(0, Sum.inl (anonKeyStub "k0"))]).get_promises.2.entries = [])
    ∧ ((AnonTargetsRegistry.mk { cfg := Configuration.named "plat" } []).get_promises.1
        = none)
    ∧ ((AnonTargetsRegistry.mk { cfg := Configuration.unspecified } []).register_one
          5 { rule_name := "r", attr_specs := [] } [] []
        = .ok (AnonTargetsRegistry.mk { cfg := Configuration.unspecified }
            [(5, Sum.inl (anonKeyStub "r"))])
        ∧ (AnonTargetsRegistry.mk { cfg := Configuration.unspecified }
            [(5, Sum.inl (anonKeyStub "r"))]).execution_platform
          = { cfg := Configuration.unspecified }) := by
  refine ⟨by decide, ?_, ?_, by decide, ?_⟩
  · exact (registry_drain_frame _).2.1 (by decide)
  · exact ((registry_drain_frame _).2.2.1 rfl).1
  · exact ((registry_drain_frame
        (AnonTargetsRegistry.mk { cfg := Configuration.unspecified } [])).2.2.2.1
        5 { rule_name := "r", attr_specs := [] } [] []
        (AnonTargetsRegistry.mk { cfg := Configuration.unspecified }
          [(5, Sum.inl (anonKeyStub "r"))]) (by decide)).1

/-- A key is bound in an association list exactly when it occurs among the
keys. -/
theorem lookupKey_isSome_iff {α : Type} (k : String) :
    ∀ l : List (String × α), (lookupKey k l).isSome = true ↔ k ∈ l.map Prod.fst := by
  intro l
  induction l with
  | nil => simp [lookupKey]
  | cons kv rest ih =>
    obtain ⟨k', v⟩ := kv
    by_cases h : k' = k
    · simp [lookupKey, h]
    · simp only [lookupKey, if_neg h, List.map_cons, List.mem_cons, ih]
      constructor
      · intro hm
        exact Or.inr hm
      · rintro (hm | hm)
        · exact absurd hm.symm h
        · exact hm

/-- Key membership rephrasing of `containsKey`. -/
theorem containsKey_iff_mem {α : Type} (l : List (String × α)) (k : String) :
    containsKey l k = true ↔ k ∈ l.map Prod.fst :=
  lookupKey_isSome_iff k l

/-- With duplicate-free keys, every member pair is what lookup finds. -/
theorem lookupKey_eq_some_of_mem {α : Type} :
    ∀ (l : List (String × α)) (kv : String × α), (l.map Prod.fst).Nodup →
      kv ∈ l → lookupKey kv.1 l = some kv.2 := by
  intro l
  induction l with
  | nil => intro kv _ hm; simp at hm
  | cons hd rest ih =>
    intro kv hnd hm
    obtain ⟨k', v'⟩ := hd
    simp only [List.map_cons, List.nodup_cons] at hnd
    rcases List.mem_cons.mp hm with h1 | h1
    · rw [h1]
      simp [lookupKey]
    · have hk : ¬ (k' = kv.1) := by
        intro hEq
        apply hnd.1
        rw [hEq]
        exact List.mem_map.mpr ⟨kv, h1, rfl⟩
      simp only [lookupKey, if_neg hk]
      exact ih kv hnd.2 h1

/-- A successful lookup is a member pair. -/
theorem mem_of_lookupKey_eq_some {α : Type} :
    ∀ (l : List (String × α)) (k : String) (v : α),
      lookupKey k l = some v → (k, v) ∈ l := by
  intro l
  induction l with
  | nil => intro k v h; simp [lookupKey] at h
  | cons hd rest ih =>
    intro k v h
    obtain ⟨k', v'⟩ := hd
    by_cases hk : k' = k
    · simp only [lookupKey, if_pos hk, Option.some.injEq] at h
      rw [← hk, ← h]
      exact List.mem_cons_self _ _
    · simp only [lookupKey, if_neg hk] at h
      exact List.mem_cons_of_mem _ (ih k v h)

/-- Lookup is invariant under permutation when the keys are duplicate-free. -/
theorem lookupKey_perm {α : Type} (l₁ l₂ : List (String × α))
    (hp : List.Perm l₁ l₂) (hnd : (l₁.map Prod.fst).Nodup) (k : String) :
    lookupKey k l₁ = lookupKey k l₂ := by
  cases h1 : lookupKey k l₁ with
  | some v =>
    have hm : (k, v) ∈ l₂ := hp.mem_iff.mp (mem_of_lookupKey_eq_some _ _ _ h1)
    have hnd2 : (l₂.map Prod.fst).Nodup := ((hp.map Prod.fst).nodup_iff).mp hnd
    exact (lookupKey_eq_some_of_mem l₂ (k, v) hnd2 hm).symm
  | none =>
    have hnm : k ∉ l₁.map Prod.fst := by
      intro hmem
      have := (lookupKey_isSome_iff k l₁).mpr hmem
      rw [h1] at this
      simp at this
    cases h2 : lookupKey k l₂ with
    | none => rfl
    | some v =>
      have : k ∈ l₂.map Prod.fst := (lookupKey_isSome_iff k l₂).mp (by rw [h2]; rfl)
      exact absurd (((hp.map Prod.fst).mem_iff).mpr this) hnm

/-- `containsKey` is invariant under permutation. -/
theorem containsKey_perm {α : Type} (l₁ l₂ : List (String × α))
    (hp : List.Perm l₁ l₂) (k : String) :
    containsKey l₁ k = containsKey l₂ k := by
  rw [Bool.eq_iff_iff, containsKey_iff_mem, containsKey_iff_mem]
  exact (hp.map Prod.fst).mem_iff

/-- Lookup distributes over append, left side first. -/
theorem lookupKey_append_some {α : Type} (k : String) (v : α) :
    ∀ a b : List (String × α),
      lookupKey k a = some v → lookupKey k (a ++ b) = some v := by
  intro a
  induction a with
  | nil => intro b h; simp [lookupKey] at h
  | cons hd rest ih =>
    intro b h
    obtain ⟨k', v'⟩ := hd
    by_cases hk : k' = k
    · simp only [lookupKey, if_pos hk] at h ⊢
      exact h
    · simp only [lookupKey, if_neg hk] at h ⊢
      exact ih b h

/-- Lookup falls through an append when the key is unbound on the left. -/
theorem lookupKey_append_none {α : Type} (k : String) :
    ∀ a b : List (String × α),
      lookupKey k a = none → lookupKey k (a ++ b) = lookupKey k b := by
  intro a
  induction a with
  | nil => intro b _; simp
  | cons hd rest ih =>
    intro b h
    obtain ⟨k', v'⟩ := hd
    by_cases hk : k' = k
    · simp only [lookupKey, if_pos hk] at h
      simp at h
    · simp only [lookupKey, if_neg hk] at h ⊢
      exact ih b h

/-- `containsKey` over an append. -/
theorem containsKey_append {α : Type} (k : String) (a b : List (String × α)) :
    containsKey (a ++ b) k = (containsKey a k || containsKey b k) := by
  rw [Bool.eq_iff_iff]
  simp only [Bool.or_eq_true, containsKey_iff_mem, List.map_append, List.mem_append]

/-- Characterization of a successful supplied-attribute loop: the resulting
attribute map is the accumulator followed by the per-entry images in input
order, and the resulting name is the fold of the `name` entries. -/
theorem coerceEntriesLoop_ok_shape (rule : RuleSchema) (ia : List String) :
    ∀ (e : List (String × RawValue)) (nm : Option TargetLabel)
      (a : List (String × ConfiguredAttr)) (nm' : Option TargetLabel)
      (d : List (String × ConfiguredAttr)),
      AnonTargetKey.coerceEntriesLoop rule ia e nm a = .ok (nm', d) →
      d = a ++ e.filterMap (entryOut rule) ∧ nm' = nameFold e nm := by
  intro e
  induction e with
  | nil =>
    intro nm a nm' d h
    simp only [AnonTargetKey.coerceEntriesLoop, Except.ok.injEq, Prod.mk.injEq] at h
    simp [nameFold, ← h.1, ← h.2]
  | cons kv rest ih =>
    intro nm a nm' d h
    obtain ⟨k, v⟩ := kv
    by_cases hk : k = "name"
    · simp only [AnonTargetKey.coerceEntriesLoop, if_pos hk] at h
      cases hc : AnonTargetKey.coerce_name v with
      | error er => rw [hc] at h; simp at h
      | ok n =>
        rw [hc] at h
        obtain ⟨hd, hnm⟩ := ih _ _ _ _ h
        constructor
        · rw [hd]
          simp [entryOut, hk]
        · rw [hnm]
          simp [nameFold, hk, hc, Except.toOption]
    · simp only [AnonTargetKey.coerceEntriesLoop, if_neg hk] at h
      split at h
      · simp at h
      · split at h
        · simp at h
        · rename_i attr hlook
          split at h
          · simp at h
          · rename_i c hco
            obtain ⟨hd, hnm⟩ := ih _ _ _ _ h
            constructor
            · rw [hd]
              simp [entryOut, hk, hlook, hco]
            · rw [hnm]
              simp [nameFold, hk]

/-- With duplicate-free keys (so at most one `name` entry), the name fold is
invariant under permutation of the supplied entries. -/
theorem nameFold_perm (e₁ e₂ : List (String × RawValue))
    (hp : List.Perm e₁ e₂) (hnd : (e₁.map Prod.fst).Nodup)
    (nm : Option TargetLabel) :
    nameFold e₁ nm = nameFold e₂ nm := by
  unfold nameFold
  apply hp.foldl_eq'
  intro x hx y hy z
  by_cases hxy : x = y
  · rw [hxy]
  · have hkeys : x.1 ≠ y.1 := by
      intro hEq
      exact hxy (List.inj_on_of_nodup_map hnd hx hy hEq)
    by_cases hxn : x.1 = "name"
    · have hyn : ¬ (y.1 = "name") := by
        intro hc
        exact hkeys (by rw [hxn, hc])
      simp [hxn, hyn]
    · by_cases hyn : y.1 = "name"
      · simp [hxn, hyn]
      · simp [hxn, hyn]

/-- A per-entry image keeps the entry's own key. -/
theorem entryOut_fst (rule : RuleSchema) (kv : String × RawValue)
    (out : String × ConfiguredAttr) (h : entryOut rule kv = some out) :
    out.1 = kv.1 := by
  unfold entryOut at h
  split at h
  · simp at h
  · split at h
    · simp at h
    · split at h
      · simp at h
      · simp only [Option.some.injEq] at h
        rw [← h]

/-- The keys of the per-entry images form a sublist of the supplied keys. -/
theorem entryOut_keys_sublist (rule : RuleSchema) :
    ∀ e : List (String × RawValue),
      ((e.filterMap (entryOut rule)).map Prod.fst).Sublist (e.map Prod.fst) := by
  intro e
  induction e with
  | nil => simp
  | cons kv rest ih =>
    cases h : entryOut rule kv with
    | none =>
      rw [List.filterMap_cons_none h]
      exact ih.cons kv.1
    | some out =>
      rw [List.filterMap_cons_some h]
      have : out.1 = kv.1 := entryOut_fst rule kv out h
      simp only [List.map_cons, this]
      exact ih.cons₂ kv.1

/-- Configuring a schema default under the neutral context always succeeds. -/
theorem configure_attr_ok (x : CoercedAttr) :
    ∃ c, AnonTargetKey.configure_attr x = .ok c := by
  cases x <;> exact ⟨_, rfl⟩

/-- The defaults loop sends permutation-related accumulators to
permutation-related results. -/
theorem applyDefaultsLoop_perm (ia : List String) :
    ∀ (specs : List (String × Attribute)) a₁ a₂ d₁ d₂,
      List.Perm a₁ a₂ →
      AnonTargetKey.applyDefaultsLoop ia specs a₁ = .ok d₁ →
      AnonTargetKey.applyDefaultsLoop ia specs a₂ = .ok d₂ →
      List.Perm d₁ d₂ := by
  intro specs
  induction specs with
  | nil =>
    intro a₁ a₂ d₁ d₂ hp h₁ h₂
    simp only [AnonTargetKey.applyDefaultsLoop, Except.ok.injEq] at h₁ h₂
    rw [← h₁, ← h₂]
    exact hp
  | cons ka rest ih =>
    intro a₁ a₂ d₁ d₂ hp h₁ h₂
    obtain ⟨k, att⟩ := ka
    have hck : containsKey a₁ k = containsKey a₂ k := containsKey_perm a₁ a₂ hp k
    simp only [AnonTargetKey.applyDefaultsLoop] at h₁ h₂
    by_cases hcond : ¬ (containsKey a₁ k = true) ∧ ¬ (ia.contains k = true)
    · rw [if_pos hcond] at h₁
      rw [if_pos ⟨by rw [← hck]; exact hcond.1, hcond.2⟩] at h₂
      cases hdef : att.default with
      | none => rw [hdef] at h₁; simp at h₁
      | some x =>
        simp only [hdef] at h₁ h₂
        obtain ⟨c, hco⟩ := configure_attr_ok x
        simp only [hco] at h₁ h₂
        exact ih _ _ _ _ (hp.append (List.Perm.refl _)) h₁ h₂
    · rw [if_neg hcond] at h₁
      rw [if_neg (by rw [← hck]; exact hcond)] at h₂
      exact ih _ _ _ _ hp h₁ h₂

/-- The defaults loop preserves duplicate-freedom of the attribute keys. -/
theorem applyDefaultsLoop_nodup (ia : List String) :
    ∀ (specs : List (String × Attribute)) a d,
      (a.map Prod.fst).Nodup →
      AnonTargetKey.applyDefaultsLoop ia specs a = .ok d →
      (d.map Prod.fst).Nodup := by
  intro specs
  induction specs with
  | nil =>
    intro a d hnd h
    simp only [AnonTargetKey.applyDefaultsLoop, Except.ok.injEq] at h
    rw [← h]
    exact hnd
  | cons ka rest ih =>
    intro a d hnd h
    obtain ⟨k, att⟩ := ka
    simp only [AnonTargetKey.applyDefaultsLoop] at h
    by_cases hcond : ¬ (containsKey a k = true) ∧ ¬ (ia.contains k = true)
    · rw [if_pos hcond] at h
      cases hdef : att.default with
      | none => rw [hdef] at h; simp at h
      | some x =>
        simp only [hdef] at h
        obtain ⟨c, hco⟩ := configure_attr_ok x
        simp only [hco] at h
        have hknot : k ∉ a.map Prod.fst := by
          intro hm
          exact hcond.1 ((containsKey_iff_mem a k).mpr hm)
        have hnd' : ((a ++ [(k, c)]).map Prod.fst).Nodup := by
          rw [List.map_append, List.nodup_append]
          refine ⟨hnd, List.nodup_singleton _, ?_⟩
          intro x hx hx2
          simp only [List.map_cons, List.map_nil, List.mem_singleton] at hx2
          rw [hx2] at hx
          exact hknot hx
        exact ih _ _ hnd' h
    · rw [if_neg hcond] at h
      exact ih _ _ hnd h

/-- Bindings already present in the accumulator survive the defaults loop. -/
theorem applyDefaultsLoop_lookup_mono (ia : List String) :
    ∀ (specs : List (String × Attribute)) a d (k : String) v,
      AnonTargetKey.applyDefaultsLoop ia specs a = .ok d →
      lookupKey k a = some v → lookupKey k d = some v := by
  intro specs
  induction specs with
  | nil =>
    intro a d k v h hl
    simp only [AnonTargetKey.applyDefaultsLoop, Except.ok.injEq] at h
    rw [← h]
    exact hl
  | cons ka rest ih =>
    intro a d k v h hl
    obtain ⟨k₀, att⟩ := ka
    simp only [AnonTargetKey.applyDefaultsLoop] at h
    by_cases hcond : ¬ (containsKey a k₀ = true) ∧ ¬ (ia.contains k₀ = true)
    · rw [if_pos hcond] at h
      cases hdef : att.default with
      | none => rw [hdef] at h; simp at h
      | some x =>
        simp only [hdef] at h
        obtain ⟨c, hco⟩ := configure_attr_ok x
        simp only [hco] at h
        exact ih _ _ k v h (lookupKey_append_some k v a _ hl)
    · rw [if_neg hcond] at h
      exact ih _ _ k v h hl

/-- Membership in a one-binding map. -/
theorem containsKey_singleton (k k₀ : String) (c : ConfiguredAttr) :
    containsKey [(k₀, c)] k = true ↔ k = k₀ := by
  by_cases h : k₀ = k
  · simp [containsKey, lookupKey, h]
  · constructor
    · intro hc
      exfalso
      simp [containsKey, lookupKey, if_neg h] at hc
    · intro hc
      exact absurd hc.symm h

/-- Key set of a successful defaults-loop result: the accumulator's keys plus
every declared non-internal key. -/
theorem applyDefaultsLoop_contains (ia : List String) :
    ∀ (specs : List (String × Attribute)) a d,
      AnonTargetKey.applyDefaultsLoop ia specs a = .ok d →
      ∀ k, containsKey d k = true ↔
        (containsKey a k = true ∨ (k ∈ specs.map Prod.fst ∧ ia.contains k = false)) := by
  intro specs
  induction specs with
  | nil =>
    intro a d h k
    simp only [AnonTargetKey.applyDefaultsLoop, Except.ok.injEq] at h
    rw [← h]
    simp
  | cons ka rest ih =>
    intro a d h k
    obtain ⟨k₀, att⟩ := ka
    simp only [AnonTargetKey.applyDefaultsLoop] at h
    by_cases hcond : ¬ (containsKey a k₀ = true) ∧ ¬ (ia.contains k₀ = true)
    · rw [if_pos hcond] at h
      cases hdef : att.default with
      | none => rw [hdef] at h; simp at h
      | some x =>
        simp only [hdef] at h
        obtain ⟨c, hco⟩ := configure_attr_ok x
        simp only [hco] at h
        have hia0 : ia.contains k₀ = false := by
          cases hv : ia.contains k₀ with
          | false => rfl
          | true => exact absurd hv hcond.2
        rw [ih _ _ h k, containsKey_append]
        constructor
        · rintro (hab | hrest)
          · rcases Bool.or_eq_true _ _ |>.mp hab with ha | hb
            · exact Or.inl ha
            · have hk : k = k₀ := (containsKey_singleton k k₀ c).mp hb
              refine Or.inr ⟨?_, by rw [hk]; exact hia0⟩
              rw [List.map_cons, hk]
              exact List.mem_cons_self _ _
          · refine Or.inr ⟨?_, hrest.2⟩
            rw [List.map_cons]
            exact List.mem_cons_of_mem _ hrest.1
        · rintro (ha | ⟨hkmem, hknot⟩)
          · exact Or.inl (Bool.or_eq_true _ _ |>.mpr (Or.inl ha))
          · rw [List.map_cons] at hkmem
            rcases List.mem_cons.mp hkmem with hk | hk
            · exact Or.inl (Bool.or_eq_true _ _ |>.mpr
                (Or.inr ((containsKey_singleton k k₀ c).mpr hk)))
            · exact Or.inr ⟨hk, hknot⟩
    · rw [if_neg hcond] at h
      rw [ih _ _ h k]
      constructor
      · rintro (ha | hrest)
        · exact Or.inl ha
        · refine Or.inr ⟨?_, hrest.2⟩
          rw [List.map_cons]
          exact List.mem_cons_of_mem _ hrest.1
      · rintro (ha | ⟨hkmem, hknot⟩)
        · exact Or.inl ha
        · rw [List.map_cons] at hkmem
          rcases List.mem_cons.mp hkmem with hk | hk
          · rcases not_and_or.mp hcond with hc | hc
            · have hc2 : containsKey a k₀ = true := by
                cases hv : containsKey a k₀ with
                | true => rfl
                | false => exact absurd (by rw [hv]; simp) hc
              exact Or.inl (by rw [hk]; exact hc2)
            · have hc2 : ia.contains k₀ = true := by
                cases hv : ia.contains k₀ with
                | true => rfl
                | false => exact absurd (by rw [hv]; simp) hc
              rw [hk, hc2] at hknot
              simp at hknot
          · exact Or.inr ⟨hk, hknot⟩

/-- An unbound key is still unbound after appending a different key. -/
theorem containsKey_append_single_ne {α : Type} (a : List (String × α))
    (k k₀ : String) (c : α) (hk : k₀ ≠ k) (h : containsKey a k = false) :
    containsKey (a ++ [(k₀, c)]) k = false := by
  rw [containsKey_append, h]
  simp only [Bool.false_or]
  simp [containsKey, lookupKey, if_neg hk]

/-- A declared, non-internal, unbound attribute with a schema default ends up
bound to its configured default by the defaults loop. -/
theorem applyDefaultsLoop_default (ia : List String) :
    ∀ (specs : List (String × Attribute)) a d (k : String) att,
      AnonTargetKey.applyDefaultsLoop ia specs a = .ok d →
      containsKey a k = false → lookupKey k specs = some att →
      ia.contains k = false →
      ∃ x c, att.default = some x ∧ AnonTargetKey.configure_attr x = .ok c
        ∧ lookupKey k d = some c := by
  intro specs
  induction specs with
  | nil =>
    intro a d k att _ _ hl
    simp [lookupKey] at hl
  | cons ka rest ih =>
    intro a d k att h hca hl hia
    obtain ⟨k₀, att₀⟩ := ka
    by_cases hk : k₀ = k
    · subst hk
      simp [lookupKey] at hl
      subst hl
      simp only [AnonTargetKey.applyDefaultsLoop] at h
      rw [if_pos ⟨by rw [hca]; simp, by rw [hia]; simp⟩] at h
      cases hdef : att₀.default with
      | none => rw [hdef] at h; simp at h
      | some x =>
        simp only [hdef] at h
        obtain ⟨c, hco⟩ := configure_attr_ok x
        simp only [hco] at h
        refine ⟨x, c, rfl, hco, ?_⟩
        have hbase : lookupKey k₀ (a ++ [(k₀, c)]) = some c := by
          have hnone : lookupKey k₀ a = none := by
            cases hv : lookupKey k₀ a with
            | none => rfl
            | some v =>
              rw [containsKey, hv] at hca
              simp at hca
          rw [lookupKey_append_none k₀ a _ hnone]
          simp [lookupKey]
        exact applyDefaultsLoop_lookup_mono ia rest _ _ k₀ c h hbase
    · simp only [lookupKey, if_neg hk] at hl
      simp only [AnonTargetKey.applyDefaultsLoop] at h
      by_cases hcond : ¬ (containsKey a k₀ = true) ∧ ¬ (ia.contains k₀ = true)
      · rw [if_pos hcond] at h
        cases hdef : att₀.default with
        | none => rw [hdef] at h; simp at h
        | some x =>
          simp only [hdef] at h
          obtain ⟨c, hco⟩ := configure_attr_ok x
          simp only [hco] at h
          exact ih _ _ k att h (containsKey_append_single_ne a k k₀ c hk hca) hl hia
      · rw [if_neg hcond] at h
        exact ih _ _ k att h hca hl hia

/-- A declared, non-internal, unbound attribute without a schema default makes
the defaults loop fail with a `MissingAttribute` error. -/
theorem applyDefaultsLoop_missing (ia : List String) :
    ∀ (specs : List (String × Attribute)) a (k : String) att,
      lookupKey k specs = some att → att.default = none →
      containsKey a k = false → ia.contains k = false →
      ∃ k', AnonTargetKey.applyDefaultsLoop ia specs a
        = .error (.anon (.MissingAttribute k')) := by
  intro specs
  induction specs with
  | nil =>
    intro a k att hl
    simp [lookupKey] at hl
  | cons ka rest ih =>
    intro a k att hl hdef hca hia
    obtain ⟨k₀, att₀⟩ := ka
    by_cases hk : k₀ = k
    · subst hk
      simp [lookupKey] at hl
      subst hl
      refine ⟨k₀, ?_⟩
      simp only [AnonTargetKey.applyDefaultsLoop]
      rw [if_pos ⟨by rw [hca]; simp, by rw [hia]; simp⟩]
      simp only [hdef]
    · simp only [lookupKey, if_neg hk] at hl
      by_cases hcond : ¬ (containsKey a k₀ = true) ∧ ¬ (ia.contains k₀ = true)
      · cases hdef₀ : att₀.default with
        | none =>
          refine ⟨k₀, ?_⟩
          simp only [AnonTargetKey.applyDefaultsLoop]
          rw [if_pos hcond]
          simp only [hdef₀]
        | some x =>
          obtain ⟨c, hco⟩ := configure_attr_ok x
          obtain ⟨k', h'⟩ := ih (a ++ [(k₀, c)]) k att hl hdef
            (containsKey_append_single_ne a k k₀ c hk hca) hia
          refine ⟨k', ?_⟩
          simp only [AnonTargetKey.applyDefaultsLoop]
          rw [if_pos hcond]
          simp only [hdef₀, hco]
          exact h'
      · obtain ⟨k', h'⟩ := ih a k att hl hdef hca hia
        refine ⟨k', ?_⟩
        simp only [AnonTargetKey.applyDefaultsLoop]
        rw [if_neg hcond]
        exact h'

/-- Key set of a successful supplied-attribute loop: the accumulator's keys
plus every supplied non-`name` key. -/
theorem coerceEntriesLoop_contains (rule : RuleSchema) (ia : List String) :
    ∀ (e : List (String × RawValue)) nm a r,
      AnonTargetKey.coerceEntriesLoop rule ia e nm a = .ok r →
      ∀ k, containsKey r.2 k = true ↔
        (containsKey a k = true ∨ (k ≠ "name" ∧ k ∈ e.map Prod.fst)) := by
  intro e
  induction e with
  | nil =>
    intro nm a r h k
    simp only [AnonTargetKey.coerceEntriesLoop, Except.ok.injEq] at h
    rw [← h]
    simp
  | cons kv rest ih =>
    intro nm a r h k
    obtain ⟨k₀, v⟩ := kv
    by_cases hk : k₀ = "name"
    · simp only [AnonTargetKey.coerceEntriesLoop, if_pos hk] at h
      cases hc : AnonTargetKey.coerce_name v with
      | error er => rw [hc] at h; simp at h
      | ok n =>
        rw [hc] at h
        rw [ih _ _ _ h k]
        constructor
        · rintro (ha | hrest)
          · exact Or.inl ha
          · refine Or.inr ⟨hrest.1, ?_⟩
            rw [List.map_cons]
            exact List.mem_cons_of_mem _ hrest.2
        · rintro (ha | ⟨hne, hmem⟩)
          · exact Or.inl ha
          · rw [List.map_cons] at hmem
            rcases List.mem_cons.mp hmem with h1 | h1
            · exact absurd (by rw [h1]; exact hk) hne
            · exact Or.inr ⟨hne, h1⟩
    · simp only [AnonTargetKey.coerceEntriesLoop, if_neg hk] at h
      split at h
      · simp at h
      · split at h
        · simp at h
        · split at h
          · simp at h
          · rename_i c hco
            rw [ih _ _ _ h k, containsKey_append]
            constructor
            · rintro (hab | hrest)
              · rcases Bool.or_eq_true _ _ |>.mp hab with ha | hb
                · exact Or.inl ha
                · have hkk : k = k₀ := (containsKey_singleton k k₀ c).mp hb
                  refine Or.inr ⟨by rw [hkk]; exact hk, ?_⟩
                  rw [List.map_cons, hkk]
                  exact List.mem_cons_self _ _
              · refine Or.inr ⟨hrest.1, ?_⟩
                rw [List.map_cons]
                exact List.mem_cons_of_mem _ hrest.2
            · rintro (ha | ⟨hne, hmem⟩)
              · exact Or.inl (Bool.or_eq_true _ _ |>.mpr (Or.inl ha))
              · rw [List.map_cons] at hmem
                rcases List.mem_cons.mp hmem with h1 | h1
                · exact Or.inl (Bool.or_eq_true _ _ |>.mpr
                    (Or.inr ((containsKey_singleton k k₀ c).mpr h1)))
                · exact Or.inr ⟨hne, h1⟩

/-- Every supplied non-`name` entry of a successful loop is a declared,
non-internal attribute. -/
theorem coerceEntriesLoop_declared (rule : RuleSchema) (ia : List String) :
    ∀ (e : List (String × RawValue)) nm a r,
      AnonTargetKey.coerceEntriesLoop rule ia e nm a = .ok r →
      ∀ kv ∈ e, kv.1 ≠ "name" →
        ia.contains kv.1 = false ∧ kv.1 ∈ rule.attr_specs.map Prod.fst := by
  intro e
  induction e with
  | nil =>
    intro nm a r _ kv hm
    simp at hm
  | cons hd rest ih =>
    intro nm a r h kv hm hne
    obtain ⟨k₀, v⟩ := hd
    by_cases hk : k₀ = "name"
    · simp only [AnonTargetKey.coerceEntriesLoop, if_pos hk] at h
      cases hc : AnonTargetKey.coerce_name v with
      | error er => rw [hc] at h; simp at h
      | ok n =>
        rw [hc] at h
        rcases List.mem_cons.mp hm with h1 | h1
        · exact absurd (by rw [h1]; exact hk) hne
        · exact ih _ _ _ h kv h1 hne
    · simp only [AnonTargetKey.coerceEntriesLoop, if_neg hk] at h
      rcases List.mem_cons.mp hm with h1 | h1
      · subst h1
        split at h
        · simp at h
        · rename_i hia
          split at h
          · simp at h
          · rename_i attr hlook
            split at h
            · simp at h
            · constructor
              · cases hv : ia.contains k₀ with
                | false => rfl
                | true => exact absurd hv hia
              · exact (lookupKey_isSome_iff k₀ rule.attr_specs).mp (by rw [hlook]; rfl)
      · split at h
        · simp at h
        · split at h
          · simp at h
          · split at h
            · simp at h
            · exact ih _ _ _ h kv h1 hne

/-- Permutation-related attribute maps with duplicate-free keys are equal as
unordered mappings. -/
theorem attrsEqUnordered_of_perm (d₁ d₂ : List (String × ConfiguredAttr))
    (hp : List.Perm d₁ d₂) (hnd₁ : (d₁.map Prod.fst).Nodup) :
    attrsEqUnordered d₁ d₂ = true := by
  unfold attrsEqUnordered
  rw [Bool.and_eq_true]
  constructor <;> rw [List.all_eq_true]
  · intro kv hkv
    rw [decide_eq_true_eq, ← lookupKey_perm d₁ d₂ hp hnd₁ kv.1]
    exact lookupKey_eq_some_of_mem d₁ kv hnd₁ hkv
  · intro kv hkv
    have hnd₂ : (d₂.map Prod.fst).Nodup := ((hp.map Prod.fst).nodup_iff).mp hnd₁
    rw [decide_eq_true_eq, lookupKey_perm d₁ d₂ hp hnd₁ kv.1]
    exact lookupKey_eq_some_of_mem d₂ kv hnd₂ hkv

/-- Sums of natural numbers are invariant under permutation. -/
theorem natSum_perm (l₁ l₂ : List Nat) (hp : List.Perm l₁ l₂) :
    l₁.sum = l₂.sum := by
  induction hp with
  | nil => rfl
  | cons x _ ih => simp [List.sum_cons, ih]
  | swap x y l => simp [List.sum_cons]; omega
  | trans _ _ ih₁ ih₂ => rw [ih₁, ih₂]

/-- The order-independent attribute-map hash is invariant under
permutation. -/
theorem attrsHash_of_perm (d₁ d₂ : List (String × ConfiguredAttr))
    (hp : List.Perm d₁ d₂) : attrsHash d₁ = attrsHash d₂ :=
  natSum_perm _ _ (hp.map attrEntryHash)

/-- Claim C3: descriptor equality and hash are independent of the order in
which attributes appear in the raw input mapping — two inputs equal as
unordered name-to-value mappings yield descriptors that are equal and hash
equal. -/
theorem anon_key_order_independent
    (ep : ExecutionPlatformResolution) (rule : RuleSchema) (ia : List String)
    (e₁ e₂ : List (String × RawValue))
    (hperm : List.Perm e₁ e₂) (hnd : (e₁.map Prod.fst).Nodup)
    (k₁ k₂ : AnonTarget)
    (h₁ : AnonTargetKey.new ep rule ia e₁ = .ok k₁)
    (h₂ : AnonTargetKey.new ep rule ia e₂ = .ok k₂) :
    anonTargetEq k₁ k₂ = true ∧ anonTargetHash k₁ = anonTargetHash k₂ := by
  cases hc₁ : AnonTargetKey.coerceEntriesLoop rule ia e₁ none [] with
  | error er => simp [AnonTargetKey.new, hc₁] at h₁
  | ok pr₁ =>
  obtain ⟨nm₁, a₁⟩ := pr₁
  cases hc₂ : AnonTargetKey.coerceEntriesLoop rule ia e₂ none [] with
  | error er => simp [AnonTargetKey.new, hc₂] at h₂
  | ok pr₂ =>
  obtain ⟨nm₂, a₂⟩ := pr₂
  obtain ⟨hd₁, hn₁⟩ := coerceEntriesLoop_ok_shape rule ia e₁ none [] nm₁ a₁ hc₁
  obtain ⟨hd₂, hn₂⟩ := coerceEntriesLoop_ok_shape rule ia e₂ none [] nm₂ a₂ hc₂
  have hnm : nm₁ = nm₂ := by
    rw [hn₁, hn₂, nameFold_perm e₁ e₂ hperm hnd none]
  have hap : List.Perm a₁ a₂ := by
    rw [hd₁, hd₂]
    simp only [List.nil_append]
    exact hperm.filterMap (entryOut rule)
  have hand : (a₁.map Prod.fst).Nodup := by
    rw [hd₁]
    simp only [List.nil_append]
    exact List.Nodup.sublist (entryOut_keys_sublist rule e₁) hnd
  cases hdl₁ : AnonTargetKey.applyDefaultsLoop ia rule.attr_specs a₁ with
  | error er => simp [AnonTargetKey.new, hc₁, hdl₁] at h₁
  | ok attrs₁ =>
  cases hdl₂ : AnonTargetKey.applyDefaultsLoop ia rule.attr_specs a₂ with
  | error er => simp [AnonTargetKey.new, hc₂, hdl₂] at h₂
  | ok attrs₂ =>
  have hdp : List.Perm attrs₁ attrs₂ :=
    applyDefaultsLoop_perm ia rule.attr_specs a₁ a₂ attrs₁ attrs₂ hap hdl₁ hdl₂
  have hdnd : (attrs₁.map Prod.fst).Nodup :=
    applyDefaultsLoop_nodup ia rule.attr_specs a₁ attrs₁ hand hdl₁
  have hae : attrsEqUnordered attrs₁ attrs₂ = true :=
    attrsEqUnordered_of_perm attrs₁ attrs₂ hdp hdnd
  have hah : attrsHash attrs₁ = attrsHash attrs₂ :=
    attrsHash_of_perm attrs₁ attrs₂ hdp
  subst hnm
  cases nm₁ with
  | none =>
    simp only [AnonTargetKey.new, hc₁, hdl₁, AnonTargetKey.create_name,
      Except.ok.injEq] at h₁
    simp only [AnonTargetKey.new, hc₂, hdl₂, AnonTargetKey.create_name,
      Except.ok.injEq] at h₂
    subst h₁
    subst h₂
    exact ⟨by simp [anonTargetEq, hae], by simp [anonTargetHash, hah]⟩
  | some n =>
    simp only [AnonTargetKey.new, hc₁, hdl₁, Except.ok.injEq] at h₁
    simp only [AnonTargetKey.new, hc₂, hdl₂, Except.ok.injEq] at h₂
    subst h₁
    subst h₂
    exact ⟨by simp [anonTargetEq, hae], by simp [anonTargetHash, hah]⟩

/-- Witness for C3 at a concrete rule and two permuted attribute inputs: the
two built descriptors are equal and hash equal. -/
theorem anon_key_order_independent_witness :
    List.Perm [("x", RawValue.str "1"), ("y", RawValue.str "2")]
      [("y", RawValue.str "2"), ("x", RawValue.str "1")]
    ∧ (([("x", RawValue.str "1"), ("y", RawValue.str "2")].map Prod.fst).Nodup)
    ∧ AnonTargetKey.new { cfg := Configuration.unspecified }
        { rule_name := "r",
          attr_specs := [("x", { coercer := AttrTypeInner.string_t, default := none }),
                         ("y", { coercer := AttrTypeInner.string_t, default := none })] }
        [] [("x", RawValue.str "1"), ("y", RawValue.str "2")]
      = .ok { rule_type := "r", name := { cell := "anon", package := "", target := "r" },
              attrs := [("x", ConfiguredAttr.string "1"), ("y", ConfiguredAttr.string "2")],
              exec_cfg := Configuration.unspecified }
    ∧ AnonTargetKey.new { cfg := Configuration.unspecified }
        { rule_name := "r",
          attr_specs := [("x", { coercer := AttrTypeInner.string_t, default := none }),
                         ("y", { coercer := AttrTypeInner.string_t, default := none })] }
        [] [("y", RawValue.str "2"), ("x", RawValue.str "1")]
      = .ok { rule_type := "r", name := { cell := "anon", package := "", target := "r" },
              attrs := [("y", ConfiguredAttr.string "2"), ("x", ConfiguredAttr.string "1")],
              exec_cfg := Configuration.unspecified }
    ∧ (anonTargetEq
        { rule_type := "r", name := { cell := "anon", package := "", target := "r" },
          attrs := [("x", ConfiguredAttr.string "1"), ("y", ConfiguredAttr.string "2")],
          exec_cfg := Configuration.unspecified }
        { rule_type := "r", name := { cell := "anon", package := "", target := "r" },
          attrs := [("y", ConfiguredAttr.string "2"), ("x", ConfiguredAttr.string "1")],
          exec_cfg := Configuration.unspecified } = true
      ∧ anonTargetHash
        { rule_type := "r", name := { cell := "anon", package := "", target := "r" },
          attrs := [("x", ConfiguredAttr.string "1"), ("y", ConfiguredAttr.string "2")],
          exec_cfg := Configuration.unspecified }
        = anonTargetHash
        { rule_type := "r", name := { cell := "anon", package := "", target := "r" },
          attrs := [("y", ConfiguredAttr.string "2"), ("x", ConfiguredAttr.string "1")],
          exec_cfg := Configuration.unspecified }) :=
  ⟨List.Perm.swap _ _ _, by decide, by decide, by decide,
   anon_key_order_independent { cfg := Configuration.unspecified }
     { rule_name := "r",
       attr_specs := [("x", { coercer := AttrTypeInner.string_t, default := none }),
                      ("y", { coercer := AttrTypeInner.string_t, default := none })] }
     [] [("x", RawValue.str "1"), ("y", RawValue.str "2")]
     [("y", RawValue.str "2"), ("x", RawValue.str "1")]
     (List.Perm.swap _ _ _) (by decide)
     { rule_type := "r", name := { cell := "anon", package := "", target := "r" },
       attrs := [("x", ConfiguredAttr.string "1"), ("y", ConfiguredAttr.string "2")],
       exec_cfg := Configuration.unspecified }
     { rule_type := "r", name := { cell := "anon", package := "", target := "r" },
       attrs := [("y", ConfiguredAttr.string "2"), ("x", ConfiguredAttr.string "1")],
       exec_cfg := Configuration.unspecified }
     (by decide) (by decide)⟩

/-- Claim C5: a successful coercion yields a configured attribute set holding
exactly the rule's declared non-internal attributes, with the configured
schema default for every declared-but-unsupplied one; and a declared
non-internal attribute that is neither supplied nor defaulted makes coercion
fail (with `MissingAttribute` once the supplied entries themselves coerce),
producing no attribute set. -/
theorem anon_attrs_exact
    (ep : ExecutionPlatformResolution) (rule : RuleSchema) (ia : List String)
    (e : List (String × RawValue)) :
    (∀ key, AnonTargetKey.new ep rule ia e = .ok key →
      (∀ k, containsKey key.attrs k = true ↔
          (k ∈ rule.attr_specs.map Prod.fst ∧ ia.contains k = false))
      ∧ (∀ k att, lookupKey k rule.attr_specs = some att → ia.contains k = false →
          k ∉ e.map Prod.fst →
          ∃ x c, att.default = some x ∧ AnonTargetKey.configure_attr x = .ok c
            ∧ lookupKey k key.attrs = some c))
    ∧ ((∃ k att, lookupKey k rule.attr_specs = some att ∧ att.default = none
          ∧ ia.contains k = false ∧ k ∉ e.map Prod.fst) →
        (∀ key, AnonTargetKey.new ep rule ia e ≠ .ok key)
        ∧ (∀ nm a₀,
            AnonTargetKey.coerceEntriesLoop rule ia e none [] = .ok (nm, a₀) →
            ∃ k', AnonTargetKey.new ep rule ia e
              = .error (.anon (.MissingAttribute k')))) := by
  have hnotsup : ∀ (k : String), k ∉ e.map Prod.fst →
      ∀ nm a₀, AnonTargetKey.coerceEntriesLoop rule ia e none [] = .ok (nm, a₀) →
      containsKey a₀ k = false := by
    intro k hmem nm a₀ hc
    cases hv : containsKey a₀ k with
    | false => rfl
    | true =>
      rcases (coerceEntriesLoop_contains rule ia e none [] (nm, a₀) hc k).mp hv with
        hfalse | hsup
      · simp [containsKey, lookupKey] at hfalse
      · exact absurd hsup.2 hmem
  constructor
  · intro key hnew
    cases hc : AnonTargetKey.coerceEntriesLoop rule ia e none [] with
    | error er => simp [AnonTargetKey.new, hc] at hnew
    | ok pr =>
    obtain ⟨nm, a₀⟩ := pr
    cases hdl : AnonTargetKey.applyDefaultsLoop ia rule.attr_specs a₀ with
    | error er => simp [AnonTargetKey.new, hc, hdl] at hnew
    | ok attrs =>
    have hka : key.attrs = attrs := by
      cases nm with
      | none =>
        simp only [AnonTargetKey.new, hc, hdl, AnonTargetKey.create_name,
          Except.ok.injEq] at hnew
        rw [← hnew]
      | some n =>
        simp only [AnonTargetKey.new, hc, hdl, Except.ok.injEq] at hnew
        rw [← hnew]
    constructor
    · intro k
      rw [hka, applyDefaultsLoop_contains ia rule.attr_specs a₀ attrs hdl k]
      constructor
      · rintro (ha | hr)
        · rcases (coerceEntriesLoop_contains rule ia e none [] (nm, a₀) hc k).mp ha with
            hfalse | hsup
          · simp [containsKey, lookupKey] at hfalse
          · obtain ⟨kv, hkv, hfst⟩ := List.mem_map.mp hsup.2
            have := coerceEntriesLoop_declared rule ia e none [] (nm, a₀) hc kv hkv
              (by rw [hfst]; exact hsup.1)
            rw [hfst] at this
            exact ⟨this.2, this.1⟩
        · exact hr
      · intro hr
        exact Or.inr hr
    · intro k att hlk hia hmem
      have hca : containsKey a₀ k = false := hnotsup k hmem nm a₀ hc
      obtain ⟨x, c, hx, hco, hl⟩ :=
        applyDefaultsLoop_default ia rule.attr_specs a₀ attrs k att hdl hca hlk hia
      exact ⟨x, c, hx, hco, by rw [hka]; exact hl⟩
  · rintro ⟨k, att, hlk, hdef, hia, hmem⟩
    have hB2 : ∀ nm a₀,
        AnonTargetKey.coerceEntriesLoop rule ia e none [] = .ok (nm, a₀) →
        ∃ k', AnonTargetKey.new ep rule ia e
          = .error (.anon (.MissingAttribute k')) := by
      intro nm a₀ hc
      obtain ⟨k', herr⟩ := applyDefaultsLoop_missing ia rule.attr_specs a₀ k att hlk
        hdef (hnotsup k hmem nm a₀ hc) hia
      exact ⟨k', by simp [AnonTargetKey.new, hc, herr]⟩
    constructor
    · intro key hnew
      cases hc : AnonTargetKey.coerceEntriesLoop rule ia e none [] with
      | error er => simp [AnonTargetKey.new, hc] at hnew
      | ok pr =>
        obtain ⟨nm, a₀⟩ := pr
        obtain ⟨k', herr⟩ := hB2 nm a₀ hc
        rw [herr] at hnew
        simp at hnew
    · exact hB2

/-- Witness for C5: at the spec's example schema (`value: string`,
`extra: string default "d"`) with input `{value: "x"}` the built set binds
`extra` to its default, and a schema with a defaultless `req` attribute and
empty input fails with `MissingAttribute`. -/
theorem anon_attrs_exact_witness :
    (AnonTargetKey.new { cfg := Configuration.unspecified }
        { rule_name := "r",
          attr_specs :=
            [("value", { coercer := AttrTypeInner.string_t, default := none }),
             ("extra", { coercer := AttrTypeInner.string_t,
                         default := some (CoercedAttr.string "d") })] }
        ["hidden"] [("value", RawValue.str "x")]
      = .ok { rule_type := "r",
              name := { cell := "anon", package := "", target := "r" },
              attrs := [("value", ConfiguredAttr.string "x"),
                        ("extra", ConfiguredAttr.string "d")],
              exec_cfg := Configuration.unspecified })
    ∧ (containsKey [("value", ConfiguredAttr.string "x"),
          ("extra", ConfiguredAttr.string "d")] "extra" = true ↔
        ("extra" ∈ ([("value", ({ coercer := AttrTypeInner.string_t, default := none } : Attribute)),
             ("extra", ({ coercer := AttrTypeInner.string_t,
                          default := some (CoercedAttr.string "d") } : Attribute))].map Prod.fst)
          ∧ (["hidden"].contains "extra") = false))
    ∧ (∃ x c, some (CoercedAttr.string "d") = some x
        ∧ AnonTargetKey.configure_attr x = .ok c
        ∧ lookupKey "extra" [("value", ConfiguredAttr.string "x"),
            ("extra", ConfiguredAttr.string "d")] = some c)
    ∧ (∃ k', AnonTargetKey.new { cfg := Configuration.unspecified }
        { rule_name := "r",
          attr_specs := [("req", { coercer := AttrTypeInner.string_t, default := none })] }
        [] [] = .error (.anon (.MissingAttribute k'))) := by
  refine ⟨by decide, ?_, ?_, ?_⟩
  · exact ((anon_attrs_exact { cfg := Configuration.unspecified }
      { rule_name := "r",
        attr_specs :=
          [("value", { coercer := AttrTypeInner.string_t, default := none }),
           ("extra", { coercer := AttrTypeInner.string_t,
                       default := some (CoercedAttr.string "d") })] }
      ["hidden"] [("value", RawValue.str "x")]).1
      { rule_type := "r",
        name := { cell := "anon", package := "", target := "r" },
        attrs := [("value", ConfiguredAttr.string "x"),
                  ("extra", ConfiguredAttr.string "d")],
        exec_cfg := Configuration.unspecified }
      (by decide)).1 "extra"
  · exact ((anon_attrs_exact { cfg := Configuration.unspecified }
      { rule_name := "r",
        attr_specs :=
          [("value", { coercer := AttrTypeInner.string_t, default := none }),
           ("extra", { coercer := AttrTypeInner.string_t,
                       default := some (CoercedAttr.string "d") })] }
      ["hidden"] [("value", RawValue.str "x")]).1
      { rule_type := "r",
        name := { cell := "anon", package := "", target := "r" },
        attrs := [("value", ConfiguredAttr.string "x"),
                  ("extra", ConfiguredAttr.string "d")],
        exec_cfg := Configuration.unspecified }
      (by decide)).2 "extra"
      { coercer := AttrTypeInner.string_t, default := some (CoercedAttr.string "d") }
      (by decide) (by decide) (by decide)
  · exact ((anon_attrs_exact { cfg := Configuration.unspecified }
      { rule_name := "r",
        attr_specs := [("req", { coercer := AttrTypeInner.string_t, default := none })] }
      [] []).2
      ⟨"req", { coercer := AttrTypeInner.string_t, default := none },
        by decide, rfl, rfl, by decide⟩).2 none [] (by decide)
